import Mathlib

/-!
Verification of the configuration-merge engine and request bridge of the
`mapproxy_wrapper` module (file `mapproxy_wrapper.py`).

The Python data (parsed YAML documents) is shallowly embedded as the
inductive type `Yaml`: mappings are association lists with string keys in
insertion order (the configuration language as used by this program keys
all mappings by strings), sequences are lists, scalars are null / bool /
int / string.  Python `dict` operations are modelled by `getKey`,
`setKey` (assignment: overwrite in place if the key exists, append
otherwise), `eraseKey` (`pop`) and `updateDict` (`dict.update`).
Fallible Python code (statements that can raise) is modelled with
`Except String`.
-/

namespace MPW

inductive Yaml where
  | null : Yaml
  | bool : Bool → Yaml
  | int : Int → Yaml
  | str : String → Yaml
  | seq : List Yaml → Yaml
  | map : List (String × Yaml) → Yaml

abbrev Doc := List (String × Yaml)

/-- The runtime type of a value, as compared by Python `type(x) != type(y)`
(`bool` and `int` are distinct types in Python). -/
def Yaml.tag : Yaml → Nat
  | .null => 0
  | .bool _ => 1
  | .int _ => 2
  | .str _ => 3
  | .seq _ => 4
  | .map _ => 5

def Yaml.isMap : Yaml → Bool
  | .map _ => true
  | _ => false

def Yaml.isNull : Yaml → Bool
  | .null => true
  | _ => false

mutual

/-- Structural size of a value (used only as a recursion budget). -/
def ysize : Yaml → Nat
  | .null => 1
  | .bool _ => 1
  | .int _ => 1
  | .str _ => 1
  | .seq l => 1 + lsize l
  | .map m => 1 + psize m

def lsize : List Yaml → Nat
  | [] => 1
  | y :: rest => 1 + ysize y + lsize rest

def psize : List (String × Yaml) → Nat
  | [] => 1
  | (_, v) :: rest => 1 + ysize v + psize rest

end

/-- Dictionary lookup (`d.get(k)` / `d[k]`), first matching key. -/
def getKey {α : Type} : List (String × α) → String → Option α
  | [], _ => none
  | (k', v) :: rest, k => if k' = k then some v else getKey rest k

/-- Key membership (`k in d`). -/
def hasKey {α : Type} (m : List (String × α)) (k : String) : Bool :=
  (getKey m k).isSome

def keys {α : Type} (m : List (String × α)) : List String :=
  m.map Prod.fst

/-- Dictionary assignment `d[k] = v`: replaces the value in place when the
key is present (a Python dict keeps the key's original position), appends
at the end otherwise. -/
def setKey {α : Type} : List (String × α) → String → α → List (String × α)
  | [], k, v => [(k, v)]
  | (k1, w) :: rest, k, v =>
    if k1 = k then (k, v) :: rest else (k1, w) :: setKey rest k v

/-- `d.pop(k)`, keeping only the removal effect. -/
def eraseKey {α : Type} (m : List (String × α)) (k : String) :
    List (String × α) :=
  m.filter (fun p => p.1 ≠ k)

/-- `d.update(u)`: assign every pair of `u` into `d`, in order. -/
def updateDict {α : Type} (m u : List (String × α)) : List (String × α) :=
  u.foldl (fun acc p => setKey acc p.1 p.2) m

/-! ### layerListToDict / layerDictToList (source lines 89-104) -/

/-- One step of `layerListToDict`'s loop body: a list entry must be a
mapping carrying a `name` (`i.get('name') is None` raises; any non-mapping
entry raises an `AttributeError` at `i.get`).  The model additionally
requires the name to be a string, since the embedded mappings are keyed by
strings. -/
def layerEntryToPair (i : Yaml) : Except String (String × Yaml) :=
  match i with
  | .map im =>
    match getKey im "name" with
    | none => .error "missing name in list layerlist"
    | some .null => .error "missing name in list layerlist"
    | some (.str s) => .ok (s, .map im)
    | some _ => .error "non-string layer name"
  | _ => .error "layer entry is not a mapping"

/-- The `for i in l` loop of `layerListToDict`: `rt[i['name']] = i`. -/
def layerPairsOf : List Yaml → Doc → Except String Doc
  | [], acc => .ok acc
  | i :: rest, acc =>
    match layerEntryToPair i with
    | .error e => .error e
    | .ok p => layerPairsOf rest (setKey acc p.1 p.2)

/-- `layerListToDict(l)`: a mapping is returned as is; a sequence is keyed
by each entry's `name`; anything else is not iterable and raises. -/
def layerListToDict : Yaml → Except String Doc
  | .map m => .ok m
  | .seq l => layerPairsOf l []
  | _ => .error "layer list is not iterable"

/-- The `for k,v in d.items()` loop of `layerDictToList`: write the key
into the value's `name` field (`v['name'] = k`, raising on a non-mapping
value) and collect the values. -/
def layerValuesOf : Doc → Except String (List Yaml)
  | [] => .ok []
  | p :: rest =>
    match p.2 with
    | .map vm =>
      match layerValuesOf rest with
      | .error e => .error e
      | .ok l => .ok (Yaml.map (setKey vm "name" (.str p.1)) :: l)
    | _ => .error "cannot set name on a non-mapping layer"

/-- `layerDictToList(d)`. -/
def layerDictToList (d : Doc) : Except String Yaml :=
  match layerValuesOf d with
  | .error e => .error e
  | .ok l => .ok (.seq l)

/-! ### _mergeCfg (source lines 123-147)

`_mergeCfg(current, base, isFirstLevel)` iterates the keys of `current`
and mutates and returns `base`.  The embedding is a pure function from
(`current`, `base`) to the resulting `base`.

The nested recursion (into values that are mappings on both sides) is
expressed with an explicit recursion-depth budget `fuel`; the budget only
ever needs the structural size of `current` (every recursive call strictly
descends into `current`), which the wrapper `mergeCfg` supplies, so the
budget is never exhausted on the wrapper's calls. -/

/-- The special first-level `layers` reconciliation (lines 134-136 and
139-141): key both sides by layer name, `dict.update` the `current` side
over the `base` side, convert back to a sequence. -/
def mergeLayers (bv v : Yaml) : Except String Yaml :=
  match layerListToDict bv with
  | .error e => .error e
  | .ok lb =>
    match layerListToDict v with
    | .error e => .error e
    | .ok lv => layerDictToList (updateDict lb lv)

def mergeCfgF : Nat → Doc → Doc → Bool → Except String Doc
  | 0, _, _, _ => .error "merge recursion budget exhausted"
  | fuel + 1, current, base, isFirstLevel =>
    match current with
    | [] => .ok base
    | (k, v) :: rest =>
      match getKey base k with
      | none => mergeCfgF fuel rest (setKey base k v) isFirstLevel
      | some bv =>
        if bv.tag ≠ v.tag then
          if k ≠ "layers" ∨ isFirstLevel = false then
            .error ("cannot merge different types for key " ++ k)
          else
            match mergeLayers bv v with
            | .error e => .error e
            | .ok merged =>
              mergeCfgF fuel rest (setKey base k merged) isFirstLevel
        else
          if k = "layers" ∧ isFirstLevel = true then
            match mergeLayers bv v with
            | .error e => .error e
            | .ok merged =>
              mergeCfgF fuel rest (setKey base k merged) isFirstLevel
          else
            match v, bv with
            | .map vm, .map bm =>
              match mergeCfgF fuel vm bm false with
              | .error e => .error e
              | .ok nb =>
                mergeCfgF fuel rest (setKey base k (.map nb)) isFirstLevel
            | _, _ => mergeCfgF fuel rest (setKey base k v) isFirstLevel

/-- `_mergeCfg(current, base, isFirstLevel)`. -/
def mergeCfg (current base : Doc) (isFirstLevel : Bool) :
    Except String Doc :=
  mergeCfgF (psize current) current base isFirstLevel

/-- Whether a computation raised. -/
def isErr {α : Type} : Except String α → Bool
  | .error _ => true
  | .ok _ => false

/-! ### _mergeBaseFiles / _loadConfigFile (source lines 149-168)

The file system is embedded as a partial function from path to parsed
document (`yaml.safe_load` of an existing file).  `_loadConfigFile` and
`_mergeBaseFiles` are mutually recursive through the `base` chain; the
recursion is embedded with an explicit depth budget on the loader (a real
run terminates only when the chain of `base` references is acyclic, which
the budget expresses). -/

abbrev FileSys := String → Option Doc

/-- `os.path.isabs` (posix). -/
def isAbs (p : String) : Bool :=
  match p.data with
  | '/' :: _ => true
  | _ => false

/-- `os.path.join(a, b)` (posix), as used with a single component. -/
def pathJoin (a b : String) : String :=
  if isAbs b then b
  else if a = "" then b
  else if a.data.getLast? = some '/' then a ++ b
  else a ++ "/" ++ b

/-- `os.path.dirname` (posix): everything up to the last slash, with
trailing slashes stripped unless the result is all slashes. -/
def dirname (p : String) : String :=
  let cs := p.data
  match ((List.range cs.length).filter
      (fun i => cs.getD i ' ' = '/')).getLast? with
  | none => ""
  | some i =>
    let head := cs.take (i + 1)
    if head.all (fun c => c = '/') then ⟨head⟩
    else ⟨(head.reverse.dropWhile (fun c => c = '/')).reverse⟩

/-- Normalization of the popped `base` value into the list iterated by the
`for base in baseFiles` loop: a string is wrapped in a singleton list, a
sequence is iterated (each entry must be a string for the `os.path`
calls), a mapping iterates its keys, anything else is not iterable and
raises. -/
def strEntries : List Yaml → Except String (List String)
  | [] => .ok []
  | .str s :: rest =>
    match strEntries rest with
    | .error e => .error e
    | .ok l => .ok (s :: l)
  | _ :: _ => .error "base entry is not a string"

def baseFileList : Yaml → Except String (List String)
  | .str s => .ok [s]
  | .seq l => strEntries l
  | .map m => .ok (keys m)
  | _ => .error "base file list is not iterable"

/-- The `for base in baseFiles` loop of `_mergeBaseFiles`: absolute paths
are skipped entirely; a relative path is joined to `baseDir`, loaded with
the supplied loader, and the working document is merged *into* the loaded
base (`cfg = self._mergeCfg(cfg, baseCfg, True)`). -/
def mergeBaseGo (load : String → Except String Doc) (baseDir : String) :
    List String → Doc → Except String Doc
  | [], cfg => .ok cfg
  | b :: rest, cfg =>
    if isAbs b then mergeBaseGo load baseDir rest cfg
    else
      match load (pathJoin baseDir b) with
      | .error e => .error e
      | .ok baseCfg =>
        match mergeCfg cfg baseCfg true with
        | .error e => .error e
        | .ok cfg' => mergeBaseGo load baseDir rest cfg'

/-- `_mergeBaseFiles(cfg, baseDir)`, parameterized by the loader used for
the base documents: if a `base` key is present it is popped and every
entry is resolved by `mergeBaseGo`. -/
def mergeBaseFilesWith (load : String → Except String Doc) (cfg : Doc)
    (baseDir : String) : Except String Doc :=
  match getKey cfg "base" with
  | none => .ok cfg
  | some bv =>
    match baseFileList bv with
    | .error e => .error e
    | .ok bs => mergeBaseGo load baseDir bs (eraseKey cfg "base")

/-- `_loadConfigFile(file)` with a recursion budget: a missing file
raises; an existing file is parsed (the `FileSys`) and its `base` chain is
resolved relative to its directory. -/
def loadConfigFile (fs : FileSys) (fuel : Nat) : String → Except String Doc :=
  @Nat.rec (fun _ => String → Except String Doc)
    (fun _ => .error "base chain recursion budget exhausted")
    (fun _ prev file =>
      match fs file with
      | none => .error ("config file " ++ file ++ " not found")
      | some cfg => mergeBaseFilesWith prev cfg (dirname file))
    fuel

/-- `_mergeBaseFiles(cfg, baseDir)` as called from the outside. -/
def mergeBaseFiles (fs : FileSys) (fuel : Nat) (cfg : Doc)
    (baseDir : String) : Except String Doc :=
  mergeBaseFilesWith (loadConfigFile fs fuel) cfg baseDir

/-! ### parseAndCheckConfig (source lines 170-208) -/

/-- The offline branch (lines 177-181): every value of the `sources`
mapping is marked `seed_only = True` in place (each value must be a
mapping for the item assignment).  `cfg.get('sources')` returning nothing
or `None` skips the branch. -/
def seedEntries : Doc → Except String Doc
  | [] => .ok []
  | p :: rest =>
    match p.2 with
    | .map vm =>
      match seedEntries rest with
      | .error e => .error e
      | .ok l => .ok ((p.1, Yaml.map (setKey vm "seed_only" (.bool true))) :: l)
    | _ => .error "source entry is not a mapping"

def seedOnly (offline : Bool) (cfg : Doc) : Except String Doc :=
  if offline = false then .ok cfg
  else
    match getKey cfg "sources" with
    | none => .ok cfg
    | some .null => .ok cfg
    | some (.map m) =>
      match seedEntries m with
      | .error e => .error e
      | .ok m' => .ok (setKey cfg "sources" (.map m'))
    | some _ => .error "sources is not a mapping"

/-- The layer-normalization step (lines 187-193): a sequence is used as
is; a mapping has each value's `name` set to its key *in place* (so the
returned document reflects the change) and the values are collected;
anything else raises at `layers.items()`.  Returns the updated document
and the layer list. -/
def nameEntries : Doc → Except String Doc
  | [] => .ok []
  | p :: rest =>
    match p.2 with
    | .map vm =>
      match nameEntries rest with
      | .error e => .error e
      | .ok l => .ok ((p.1, Yaml.map (setKey vm "name" (.str p.1))) :: l)
    | _ => .error "cannot set name on a non-mapping layer"

def layersToList (cfg : Doc) (layers : Yaml) :
    Except String (Doc × List Yaml) :=
  match layers with
  | .seq l => .ok (cfg, l)
  | .map m =>
    match nameEntries m with
    | .error e => .error e
    | .ok m' => .ok (setKey cfg "layers" (.map m'), m'.map Prod.snd)
  | _ => .error "layers is not a mapping"

/-- `cachecfg.get('type') in ['sqlite','files']`. -/
def isBeforeType : Option Yaml → Bool
  | some (.str s) => s = "sqlite" || s = "files"
  | _ => false

/-- Lines 200-204: if source `s` names a cache, take a shallow copy of the
cache's entry, tag it with its `name` and the derived `hasBefore` flag.
A non-string `s` never equals a string key, so it matches nothing. -/
def cacheEntryFor (caches : Doc) (s : Yaml) : Except String (Option Doc) :=
  match s with
  | .str ss =>
    match getKey caches ss with
    | none => .ok none
    | some (.map cm) =>
      let centry := setKey cm "name" (.str ss)
      match getKey centry "cache" with
      | none =>
        .ok (some (setKey centry "hasBefore"
          (.bool (isBeforeType (getKey ([] : Doc) "type")))))
      | some (.map cc) =>
        .ok (some (setKey centry "hasBefore"
          (.bool (isBeforeType (getKey cc "type")))))
      | some _ => .error "cache is not a mapping"
    | some _ => .error "cache entry is not a mapping"
  | _ => .ok none

/-- The `sources` list of one layer (`layer.get('sources', [])` followed
by iteration): absent gives the empty default; a sequence iterates its
entries, a mapping its keys, a string its characters; anything else
raises. -/
def layerSources (lm : Doc) : Except String (List Yaml) :=
  match getKey lm "sources" with
  | none => .ok []
  | some (.seq l) => .ok l
  | some (.map m) => .ok (m.map (fun p => Yaml.str p.1))
  | some (.str s) => .ok (s.data.map (fun c => Yaml.str (String.singleton c)))
  | some _ => .error "sources of layer is not iterable"

/-- The `for s in sources` loop (lines 199-207), appending to the
`layer2caches` list of the current layer's name. -/
def addSources (caches : Doc) (name : String) :
    List Yaml → List (String × List Doc) →
    Except String (List (String × List Doc))
  | [], acc => .ok acc
  | s :: rest, acc =>
    match cacheEntryFor caches s with
    | .error e => .error e
    | .ok none => addSources caches name rest acc
    | .ok (some centry) =>
      match getKey acc name with
      | none => addSources caches name rest (setKey acc name [centry])
      | some lst =>
        addSources caches name rest (setKey acc name (lst ++ [centry]))

/-- The body of the `for layer in layerlist` loop (lines 194-207): read
the layer's name and sources, skip the layer when the name is missing,
otherwise append a tagged cache snapshot for every source naming a cache.
The model requires layer names to be strings (the mapping keys of the
embedding). -/
def addLayerCaches (caches : Doc) (l2c : List (String × List Doc))
    (layer : Yaml) : Except String (List (String × List Doc)) :=
  match layer with
  | .map lm =>
    match getKey lm "name" with
    | none => .ok l2c
    | some .null => .ok l2c
    | some (.str name) =>
      match layerSources lm with
      | .error e => .error e
      | .ok srcs => addSources caches name srcs l2c
    | some _ => .error "non-string layer name"
  | _ => .error "layer entry is not a mapping"

/-- The `for layer in layerlist` loop (lines 194-207). -/
def layersLoop (caches : Doc) : List Yaml → List (String × List Doc) →
    Except String (List (String × List Doc))
  | [], acc => .ok acc
  | l :: rest, acc =>
    match addLayerCaches caches acc l with
    | .error e => .error e
    | .ok acc' => layersLoop caches rest acc'

/-- Lines 177-208 of `parseAndCheckConfig`: the offline marking followed
by the layer-to-caches extraction.  The extraction runs only when both
`layers` and `caches` are present and non-`None`; the model requires
`caches` to be a mapping there (as every real configuration has). -/
def parseAndCheckConfigCore (offline : Bool) (cfg0 : Doc) :
    Except String (Doc × List (String × List Doc)) :=
  match seedOnly offline cfg0 with
  | .error e => .error e
  | .ok cfg =>
    match getKey cfg "layers", getKey cfg "caches" with
    | some layers, some caches =>
      if layers.isNull || caches.isNull then .ok (cfg, [])
      else
        match caches with
        | .map cm =>
          match layersToList cfg layers with
          | .error e => .error e
          | .ok (cfg', layerlist) =>
            match layersLoop cm layerlist [] with
            | .error e => .error e
            | .ok l2c => .ok (cfg', l2c)
        | _ => .error "caches is not a mapping"
    | _, _ => .ok (cfg, [])

/-- `parseAndCheckConfig(offline, cfg)` with a supplied document: the
document is first resolved against its base chain relative to the
configured file's directory, then checked.  (With no supplied document
the same happens to the loaded configured file.) -/
def parseAndCheckConfig (fs : FileSys) (fuel : Nat) (configFile : String)
    (offline : Bool) (cfg : Option Doc) :
    Except String (Doc × List (String × List Doc)) :=
  match cfg with
  | none =>
    match loadConfigFile fs fuel configFile with
    | .error e => .error e
    | .ok c => parseAndCheckConfigCore offline c
  | some c =>
    match mergeBaseFilesWith (loadConfigFile fs fuel) c
        (dirname configFile) with
    | .error e => .error e
    | .ok c' => parseAndCheckConfigCore offline c'

/-! ### _getWsgiEnv (source lines 328-373)

The per-connection handler object supplied by the socket listener is
embedded as a record of the fields `_getWsgiEnv` reads.  The synthesized
environment is a string-keyed dictionary, built with `setKey` in the
exact order of the source's assignments. -/

structure Handler where
  serverPort : Nat
  requestVersion : String
  command : String
  path : String
  addressString : String
  clientAddress : String
  headers : List (String × String)

/-- Lower-casing of a header name, character-wise. -/
def lowerStr (s : String) : String :=
  ⟨s.data.map Char.toLower⟩

/-- `v.strip()`: whitespace removed from both ends. -/
def trimStr (s : String) : String :=
  ⟨((s.data.dropWhile Char.isWhitespace).reverse.dropWhile
      Char.isWhitespace).reverse⟩

/-- First occurrence of a header, by case-insensitive name
(`handler.headers.get(name)` of the message object). -/
def headerGetCI (hs : List (String × String)) (name : String) :
    Option String :=
  match hs with
  | [] => none
  | (k, v) :: rest =>
    if lowerStr k = lowerStr name then some v else headerGetCI rest name

/-- `handler.path.split('?', 1)`: split at the first occurrence of the
character, when present. -/
def splitOnFirst : List Char → Char → Option (List Char × List Char)
  | [], _ => none
  | c :: rest, q =>
    if c = q then some ([], rest)
    else
      match splitOnFirst rest q with
      | none => none
      | some (a, b) => some (c :: a, b)

def hexVal (c : Char) : Option Nat :=
  if '0' ≤ c ∧ c ≤ '9' then some (c.toNat - '0'.toNat)
  else if 'a' ≤ c ∧ c ≤ 'f' then some (c.toNat - 'a'.toNat + 10)
  else if 'A' ≤ c ∧ c ≤ 'F' then some (c.toNat - 'A'.toNat + 10)
  else none

/-- `urllib.parse.unquote(path, 'iso-8859-1')`: every `%XX` escape with two
hex digits becomes the latin-1 character of that byte; malformed escapes
stay literal. -/
def percentDecode : List Char → List Char
  | [] => []
  | '%' :: a :: b :: rest =>
    match hexVal a, hexVal b with
    | some x, some y => Char.ofNat (16 * x + y) :: percentDecode rest
    | _, _ => '%' :: percentDecode (a :: b :: rest)
  | c :: rest => c :: percentDecode rest

/-- `k.replace('-', '_').upper()`. -/
def headerKey (k : String) : String :=
  ⟨k.data.map (fun c => if c = '-' then '_' else c.toUpper)⟩

/-- The header-folding loop (lines 364-372): transform the name; skip it
when the transformed name itself is already an environment key; otherwise
comma-join into, or create, the `HTTP_`-prefixed key.  Values are
stripped of surrounding whitespace. -/
def addHeaders (env : List (String × String)) :
    List (String × String) → List (String × String)
  | [] => env
  | (k0, v0) :: rest =>
    let k := headerKey k0
    let v := trimStr v0
    let env' :=
      if hasKey env k then env
      else
        match getKey env ("HTTP_" ++ k) with
        | some old => setKey env ("HTTP_" ++ k) (old ++ "," ++ v)
        | none => setKey env ("HTTP_" ++ k) v
    addHeaders env' rest

/-- Lines 329-348: the unconditional front of the synthesized
environment.  `ownPath` is the bridge's URL prefix (`self.prefix`); the
request path is split at the first `?`, percent-decoded, and the prefix's
length is cut off the front. -/
def wsgiEnvCore (ownPath : String) (h : Handler) :
    List (String × String) :=
  let env : List (String × String) := []
  let env := setKey env "SERVER_NAME" "avnav"
  let env := setKey env "GATEWAY_INTERFACE" "CGI/1.1"
  let env := setKey env "SERVER_PORT" (toString h.serverPort)
  let env := setKey env "REMOTE_HOST" ""
  let env := setKey env "CONTENT_LENGTH" ""
  let env := setKey env "SCRIPT_NAME" ""
  let env := setKey env "SERVER_PROTOCOL" h.requestVersion
  let env := setKey env "SERVER_SOFTWARE" "WSGIServer/0.2"
  let env := setKey env "REQUEST_METHOD" h.command
  let pq : String × String :=
    match splitOnFirst h.path.data '?' with
    | some (a, b) => (⟨a⟩, ⟨b⟩)
    | none => (h.path, "")
  let mpath : String := ⟨(percentDecode pq.1.data).drop ownPath.length⟩
  let env := setKey env "PATH_INFO" mpath
  let env := setKey env "QUERY_STRING" pq.2
  env

/-- Lines 350-362: host/address fields, content type (falling back to the
message's default type, `text/plain` for HTTP messages) and a present,
non-empty content-length overwriting the empty default. -/
def wsgiEnvBase (ownPath : String) (h : Handler) :
    List (String × String) :=
  let env := wsgiEnvCore ownPath h
  let env :=
    if h.addressString ≠ h.clientAddress then
      setKey env "REMOTE_HOST" h.addressString
    else env
  let env := setKey env "REMOTE_ADDR" h.clientAddress
  let env :=
    match headerGetCI h.headers "content-type" with
    | none => setKey env "CONTENT_TYPE" "text/plain"
    | some ct => setKey env "CONTENT_TYPE" ct
  let env :=
    match headerGetCI h.headers "content-length" with
    | some l => if l ≠ "" then setKey env "CONTENT_LENGTH" l else env
    | none => env
  env

/-- Whether a key lies in the `HTTP_` namespace of folded headers. -/
def startsWithHTTP (k : String) : Bool :=
  match k.data with
  | 'H' :: 'T' :: 'T' :: 'P' :: '_' :: _ => true
  | _ => false

/-- `_getWsgiEnv(handler)`. -/
def getWsgiEnv (ownPath : String) (h : Handler) :
    List (String × String) :=
  addHeaders (wsgiEnvBase ownPath h) h.headers

/-! ### MapProxyWrapper lifecycle (source lines 105-283)

The wrapper's mutable fields form the state; the outside world a
`createProxy` call interacts with (file existence and modification time, the outcome of
`createConfigAndMappings`, the outcome of the opaque engine factory
`make_wsgi_app`) is an oracle record.  `OwnLogHandler.fatalError` (the
log bridge's slot, read through `getFatalError`) is the `handlerFatal`
field. -/

/-- Opaque handle to the embedded engine (`make_wsgi_app`'s result). -/
structure Application where
  id : Nat
deriving DecidableEq

structure WState where
  mapproxy : Option Application
  configTimeStamp : Option Nat
  fatalError : Option String
  handlerFatal : Option String
  layerMappings : List (String × List Doc)

/-- The state established by `__init__` (lines 107-121). -/
def initialState : WState :=
  { mapproxy := none, configTimeStamp := none, fatalError := none,
    handlerFatal := none, layerMappings := [] }

/-- `getFatalError(reset=False)` (lines 263-269): the wrapper's own slot,
falling back to the log handler's. -/
def getFatalErrorView (st : WState) : Option String :=
  match st.fatalError with
  | some e => some e
  | none => st.handlerFatal

/-- `getFatalError(reset=True)`: the own slot is cleared either way; the
handler's slot is read and cleared only when the own slot was empty. -/
def getFatalErrorReset (st : WState) : Option String × WState :=
  match st.fatalError with
  | some e => (some e, { st with fatalError := none })
  | none =>
    (st.handlerFatal, { st with fatalError := none, handlerFatal := none })

/-- The outside world of one `createProxy` call: whether the configured
file exists and its modification timestamp, and the outcomes of the two
effectful build steps (`createConfigAndMappings`, which on success
installs the freshly extracted layer mappings, and the opaque engine
factory `make_wsgi_app`). -/
structure ProxyEnv where
  configExists : Bool
  mtime : Nat
  buildConfig : Except String (List (String × List Doc))
  buildApp : Except String Application

/-- `createProxy(changedOnly, isOffline)` (lines 235-261).  Returns the
Python result (`True`/`False`, or the raised exception's text) together
with the post-state. -/
def createProxy (env : ProxyEnv) (st : WState) (changedOnly : Bool) :
    Except String Bool × WState :=
  let changedOnly :=
    if st.mapproxy.isNone || st.configTimeStamp.isNone then false
    else changedOnly
  if env.configExists = false then
    (.error "config file not found", { st with mapproxy := none })
  else if changedOnly = true ∧ st.configTimeStamp = some env.mtime then
    (.ok false, st)
  else
    let st :=
      { st with
          fatalError := none, mapproxy := none,
          configTimeStamp := some env.mtime }
    match env.buildConfig with
    | .error e =>
      (.error e, { st with layerMappings := [], fatalError := some e })
    | .ok m =>
      let st := { st with layerMappings := m }
      match env.buildApp with
      | .error e =>
        (.error e, { st with layerMappings := [], fatalError := some e })
      | .ok app =>
        let st := { st with mapproxy := some app }
        let (_, st) := getFatalErrorReset st
        (.ok true, st)

/-- The status record returned by `getStatus` (lines 271-283). -/
structure StatusR where
  running : Bool
  status : String
  lastError : Option String
deriving DecidableEq

/-- `getStatus()`: `ok` whenever an application is held (and any queued
fatal error is suppressed), `error` when none is held but a fatal error
is recorded, `unknown` otherwise. -/
def getStatus (st : WState) : StatusR :=
  let error := getFatalErrorView st
  match st.mapproxy with
  | some _ => { running := true, status := "ok", lastError := none }
  | none =>
    if error.isSome then
      { running := false, status := "error", lastError := error }
    else
      { running := false, status := "unknown", lastError := none }

/-! ### Concrete documents and oracles used by the claim theorems -/

/-- Child document `{layers: [{name: x, a: 1}]}` (sequence-form layers). -/
def seqChild : Doc :=
  [("layers", .seq [.map [("name", .str "x"), ("a", .int 1)]])]

/-- Base document `{layers: [{name: x, a: 0}, {name: y, b: 2}]}`. -/
def seqBase : Doc :=
  [("layers", .seq [.map [("name", .str "x"), ("a", .int 0)],
                    .map [("name", .str "y"), ("b", .int 2)]])]

/-- Base document `{layers: {x: {a: 0, b: 2}, y: {c: 3}}}` (mapping-form
layers). -/
def mapBase : Doc :=
  [("layers", .map [("x", .map [("a", .int 0), ("b", .int 2)]),
                    ("y", .map [("c", .int 3)])])]

/-- A build oracle whose two effectful steps succeed. -/
def okEnv : ProxyEnv :=
  { configExists := true, mtime := 5,
    buildConfig := .ok [("l", [])], buildApp := .ok ⟨1⟩ }

/-- A build oracle whose engine-factory step raises. -/
def failEnv : ProxyEnv :=
  { configExists := true, mtime := 5,
    buildConfig := .ok [("l", [])], buildApp := .error "boom" }

/-- A connection handler for `GET /prefix/tiles/1/2/3.png?x=1` carrying
two repeated `X-Custom` headers. -/
def xCustomHandler (a b : String) : Handler :=
  { serverPort := 8080, requestVersion := "HTTP/1.1", command := "GET",
    path := "/prefix/tiles/1/2/3.png?x=1", addressString := "1.2.3.4",
    clientAddress := "1.2.3.4",
    headers := [("X-Custom", a), ("X-Custom", b)] }

/-- A connection handler carrying one header colliding with a well-known
environment key. -/
def collidingHandler : Handler :=
  { serverPort := 8080, requestVersion := "HTTP/1.1", command := "GET",
    path := "/prefix/tiles/1/2/3.png?x=1", addressString := "1.2.3.4",
    clientAddress := "1.2.3.4", headers := [("Server-Name", "evil")] }

/-- A file system with no files. -/
def fsEmpty : FileSys := fun _ => none

/-- A file system holding one base document at `d/r.yaml`. -/
def fsOne : FileSys := fun p =>
  if p = "d/r.yaml" then some [("k", .int 2)] else none

/-- The effect of `v['name'] = k` on one mapping entry of a name-keyed
layer dictionary (the identity on the unreachable non-mapping case). -/
def insLayerName (p : String × Yaml) : String × Yaml :=
  match p.2 with
  | .map vm => (p.1, .map (setKey vm "name" (.str p.1)))
  | _ => p

/-- A cache snapshot as placed in the layer-cache mapping: it carries the
derived `hasBefore` flag and its originating cache `name`. -/
def tagged (d : Doc) : Prop :=
  getKey d "hasBefore" ≠ none ∧ getKey d "name" ≠ none

/-- A document with mapping-form layers and a caches mapping. -/
def capCfg : Doc :=
  [("layers", .map [("l1", .map [("sources", .seq [.str "c1"])])]),
   ("caches", .map [("c1", .map [("cache",
      .map [("type", .str "sqlite")])])])]

/-- The document `parseAndCheckConfig` returns for `capCfg`: the layer
value gained its key as `name`; the caches entry is untouched. -/
def capOut : Doc :=
  [("layers", .map [("l1", .map [("sources", .seq [.str "c1"]),
      ("name", .str "l1")])]),
   ("caches", .map [("c1", .map [("cache",
      .map [("type", .str "sqlite")])])])]

/-- The snapshot extracted for layer `l1` from `capCfg`. -/
def capEntry : Doc :=
  [("cache", .map [("type", .str "sqlite")]), ("name", .str "c1"),
   ("hasBefore", .bool true)]

/-! ## Lemmas about the dictionary model -/

theorem keys_cons {α : Type} (k1 : String) (w : α)
    (rest : List (String × α)) :
    keys ((k1, w) :: rest) = k1 :: keys rest := rfl

theorem getKey_eq_none_of_not_mem {α : Type} {m : List (String × α)}
    {k : String} (h : k ∉ keys m) : getKey m k = none := by
  induction m with
  | nil => rfl
  | cons p rest ih =>
    obtain ⟨k1, v⟩ := p
    rw [keys_cons, List.mem_cons, not_or] at h
    rw [getKey, if_neg (fun hk : k1 = k => h.1 hk.symm)]
    exact ih h.2

theorem not_mem_of_getKey_eq_none {α : Type} {m : List (String × α)}
    {k : String} (h : getKey m k = none) : k ∉ keys m := by
  induction m with
  | nil => simp [keys]
  | cons p rest ih =>
    obtain ⟨k1, v⟩ := p
    rw [getKey] at h
    by_cases h1 : k1 = k
    · simp [h1] at h
    · rw [keys_cons, List.mem_cons, not_or]
      exact ⟨fun hk => h1 hk.symm, ih (by simpa [h1] using h)⟩

theorem getKey_setKey_self {α : Type} (m : List (String × α)) (k : String)
    (v : α) : getKey (setKey m k v) k = some v := by
  induction m with
  | nil => simp [setKey, getKey]
  | cons p rest ih =>
    obtain ⟨k1, w⟩ := p
    by_cases h : k1 = k <;> simp [setKey, getKey, h, ih]

theorem getKey_setKey_ne {α : Type} (m : List (String × α)) (k k' : String)
    (v : α) (hne : k' ≠ k) : getKey (setKey m k v) k' = getKey m k' := by
  induction m with
  | nil => simp [setKey, getKey, Ne.symm hne]
  | cons p rest ih =>
    obtain ⟨k1, w⟩ := p
    by_cases h : k1 = k
    · subst h
      simp [setKey, getKey, Ne.symm hne]
    · by_cases h2 : k1 = k' <;> simp [setKey, getKey, h, h2, ih, hne]

theorem setKey_of_getKey_none {α : Type} {m : List (String × α)}
    {k : String} (v : α) (h : getKey m k = none) :
    setKey m k v = m ++ [(k, v)] := by
  induction m with
  | nil => rfl
  | cons p rest ih =>
    obtain ⟨k1, w⟩ := p
    rw [getKey] at h
    by_cases h1 : k1 = k
    · simp [h1] at h
    · rw [setKey, if_neg h1, ih (by simpa [h1] using h)]
      rfl

theorem keys_setKey_of_mem {α : Type} {m : List (String × α)} {k : String}
    (v : α) (h : k ∈ keys m) : keys (setKey m k v) = keys m := by
  induction m with
  | nil => simp [keys] at h
  | cons p rest ih =>
    obtain ⟨k1, w⟩ := p
    by_cases h1 : k1 = k
    · rw [setKey, if_pos h1, keys_cons, keys_cons, h1]
    · rw [keys_cons, List.mem_cons] at h
      have hk : k ∈ keys rest := by
        rcases h with h | h
        · exact absurd h.symm h1
        · exact h
      rw [setKey, if_neg h1, keys_cons, keys_cons, ih hk]

theorem getKey_append {α : Type} (m m' : List (String × α)) (k : String) :
    getKey (m ++ m') k =
      match getKey m k with
      | some v => some v
      | none => getKey m' k := by
  induction m with
  | nil => simp [getKey]
  | cons p rest ih =>
    obtain ⟨k1, w⟩ := p
    by_cases h : k1 = k <;> simp [getKey, h, ih]

/-! ## Lemmas about _mergeCfg -/

/-- Keys the merge never touches (absent from `current`) keep the value
they have in `base`. -/
theorem mergeCfgF_preserve {k : String} :
    ∀ (fuel : Nat) (c b : Doc) (f : Bool) (r : Doc),
      getKey c k = none → mergeCfgF fuel c b f = .ok r →
      getKey r k = getKey b k := by
  intro fuel
  induction fuel with
  | zero => intro c b f r _ h; simp [mergeCfgF] at h
  | succ n ih =>
    intro c b f r hk h
    match c with
    | [] =>
      simp only [mergeCfgF] at h
      cases h
      rfl
    | (k1, v) :: rest =>
      rw [getKey] at hk
      by_cases h1 : k1 = k
      · simp [h1] at hk
      · rw [if_neg h1] at hk
        simp only [mergeCfgF] at h
        have hne : k ≠ k1 := fun hkk => h1 hkk.symm
        cases hg : getKey b k1 with
        | none =>
          simp only [hg] at h
          rw [ih rest _ f r hk h, getKey_setKey_ne _ _ _ _ hne]
        | some bv =>
          simp only [hg] at h
          by_cases ht : bv.tag ≠ v.tag
          · rw [if_pos ht] at h
            by_cases hl : k1 ≠ "layers" ∨ f = false
            · rw [if_pos hl] at h
              cases h
            · rw [if_neg hl] at h
              cases hm : mergeLayers bv v with
              | error e => simp only [hm] at h; exact Except.noConfusion h
              | ok merged =>
                simp only [hm] at h
                rw [ih rest _ f r hk h, getKey_setKey_ne _ _ _ _ hne]
          · rw [if_neg ht] at h
            by_cases hl : k1 = "layers" ∧ f = true
            · rw [if_pos hl] at h
              cases hm : mergeLayers bv v with
              | error e => simp only [hm] at h; exact Except.noConfusion h
              | ok merged =>
                simp only [hm] at h
                rw [ih rest _ f r hk h, getKey_setKey_ne _ _ _ _ hne]
            · rw [if_neg hl] at h
              match v, bv, h with
              | .map vm, .map bm, h =>
                cases hm : mergeCfgF n vm bm false with
                | error e => simp only [hm] at h; exact Except.noConfusion h
                | ok nb =>
                  simp only [hm] at h
                  rw [ih rest _ f r hk h, getKey_setKey_ne _ _ _ _ hne]
              | .null, bv, h =>
                rw [ih rest _ f r hk h, getKey_setKey_ne _ _ _ _ hne]
              | .bool _, bv, h =>
                rw [ih rest _ f r hk h, getKey_setKey_ne _ _ _ _ hne]
              | .int _, bv, h =>
                rw [ih rest _ f r hk h, getKey_setKey_ne _ _ _ _ hne]
              | .str _, bv, h =>
                rw [ih rest _ f r hk h, getKey_setKey_ne _ _ _ _ hne]
              | .seq _, bv, h =>
                rw [ih rest _ f r hk h, getKey_setKey_ne _ _ _ _ hne]
              | .map _, .null, h =>
                rw [ih rest _ f r hk h, getKey_setKey_ne _ _ _ _ hne]
              | .map _, .bool _, h =>
                rw [ih rest _ f r hk h, getKey_setKey_ne _ _ _ _ hne]
              | .map _, .int _, h =>
                rw [ih rest _ f r hk h, getKey_setKey_ne _ _ _ _ hne]
              | .map _, .str _, h =>
                rw [ih rest _ f r hk h, getKey_setKey_ne _ _ _ _ hne]
              | .map _, .seq _, h =>
                rw [ih rest _ f r hk h, getKey_setKey_ne _ _ _ _ hne]

theorem ysize_pos (y : Yaml) : 1 ≤ ysize y := by
  cases y <;> simp [ysize]

theorem psize_pos (m : Doc) : 1 ≤ psize m := by
  cases m with
  | nil => simp [psize]
  | cons p rest => obtain ⟨k, v⟩ := p; simp [psize]; omega

theorem psize_cons (k : String) (v : Yaml) (rest : Doc) :
    psize ((k, v) :: rest) = 1 + ysize v + psize rest := rfl

theorem keys_append {α : Type} (m m' : List (String × α)) :
    keys (m ++ m') = keys m ++ keys m' := by
  simp [keys]

/-- Merging documents with disjoint key sets always succeeds and simply
appends the `current` entries after the `base` entries. -/
theorem mergeCfgF_disjoint :
    ∀ (fuel : Nat) (c b : Doc) (f : Bool), psize c ≤ fuel →
      (keys c).Nodup → (∀ k ∈ keys c, k ∉ keys b) →
      mergeCfgF fuel c b f = .ok (b ++ c) := by
  intro fuel
  induction fuel with
  | zero =>
    intro c b f hs _ _
    exact absurd (le_trans (psize_pos c) hs) (by omega)
  | succ n ih =>
    intro c b f hs hnd hdis
    match c with
    | [] => simp [mergeCfgF]
    | (k, v) :: rest =>
      have hkb : getKey b k = none :=
        getKey_eq_none_of_not_mem (hdis k (by simp [keys]))
      simp only [mergeCfgF, hkb]
      rw [setKey_of_getKey_none v hkb]
      have hrs : psize rest ≤ n := by
        rw [psize_cons] at hs
        have := ysize_pos v
        omega
      rw [keys_cons] at hnd hdis
      have hnd' : (keys rest).Nodup := hnd.of_cons
      have hdis' : ∀ k' ∈ keys rest, k' ∉ keys (b ++ [(k, v)]) := by
        intro k' hk'
        rw [keys_append]
        intro hmem
        rcases List.mem_append.mp hmem with hm | hm
        · exact hdis k' (List.mem_cons_of_mem _ hk') hm
        · have : k' = k := by simpa [keys] using hm
          exact (List.nodup_cons.mp hnd).1 (this ▸ hk')
      rw [ih rest (b ++ [(k, v)]) f hrs hnd' hdis']
      simp

/-- A key shared by both documents, carrying same-typed values whose base
side is not a mapping, ends up with the `current` document's value —
except for the first-level `layers` key. -/
theorem mergeCfgF_shared {k : String} {v bv : Yaml} :
    ∀ (fuel : Nat) (c b : Doc) (f : Bool) (r : Doc),
      getKey c k = some v → (keys c).Nodup → getKey b k = some bv →
      bv.tag = v.tag → bv.isMap = false →
      (k ≠ "layers" ∨ f = false) →
      mergeCfgF fuel c b f = .ok r → getKey r k = some v := by
  intro fuel
  induction fuel with
  | zero => intro c b f r _ _ _ _ _ _ h; simp [mergeCfgF] at h
  | succ n ih =>
    intro c b f r hc hnd hb ht hbm hkl h
    match c with
    | [] => rw [getKey] at hc; cases hc
    | (k1, v1) :: rest =>
      rw [getKey] at hc
      by_cases h1 : k1 = k
      · rw [if_pos h1] at hc
        injection hc with hc
        subst h1 hc
        simp only [mergeCfgF, hb] at h
        rw [if_neg (by simp [ht])] at h
        have hl2 : ¬(k1 = "layers" ∧ f = true) := by
          rcases hkl with hk | hf
          · exact fun hx => hk hx.1
          · subst hf; exact fun hx => by cases hx.2
        rw [if_neg hl2] at h
        have hrest : getKey rest k1 = none := by
          apply getKey_eq_none_of_not_mem
          rw [keys_cons] at hnd
          exact (List.nodup_cons.mp hnd).1
        have hpres := mergeCfgF_preserve (k := k1) n rest
            (setKey b k1 v1) f r hrest
        have hset : getKey (setKey b k1 v1) k1 = some v1 :=
          getKey_setKey_self b k1 v1
        match v1, bv, hbm, h with
        | .null, .null, _, h => rw [hpres h, hset]
        | .bool _, .bool _, _, h => rw [hpres h, hset]
        | .int _, .int _, _, h => rw [hpres h, hset]
        | .str _, .str _, _, h => rw [hpres h, hset]
        | .seq _, .seq _, _, h => rw [hpres h, hset]
        | .null, .bool _, _, h => cases ht
        | .null, .int _, _, h => cases ht
        | .null, .str _, _, h => cases ht
        | .null, .seq _, _, h => cases ht
        | .bool _, .null, _, h => cases ht
        | .bool _, .int _, _, h => cases ht
        | .bool _, .str _, _, h => cases ht
        | .bool _, .seq _, _, h => cases ht
        | .int _, .null, _, h => cases ht
        | .int _, .bool _, _, h => cases ht
        | .int _, .str _, _, h => cases ht
        | .int _, .seq _, _, h => cases ht
        | .str _, .null, _, h => cases ht
        | .str _, .bool _, _, h => cases ht
        | .str _, .int _, _, h => cases ht
        | .str _, .seq _, _, h => cases ht
        | .seq _, .null, _, h => cases ht
        | .seq _, .bool _, _, h => cases ht
        | .seq _, .int _, _, h => cases ht
        | .seq _, .str _, _, h => cases ht
        | .map _, .null, _, h => cases ht
        | .map _, .bool _, _, h => cases ht
        | .map _, .int _, _, h => cases ht
        | .map _, .str _, _, h => cases ht
        | .map _, .seq _, _, h => cases ht
      · rw [if_neg h1] at hc
        have hnd' : (keys rest).Nodup := by
          rw [keys_cons] at hnd; exact hnd.of_cons
        have hkne : k ≠ k1 := fun hx => h1 hx.symm
        simp only [mergeCfgF] at h
        cases hg : getKey b k1 with
        | none =>
          rw [hg] at h
          exact ih rest _ f r hc hnd'
            (by rw [getKey_setKey_ne _ _ _ _ hkne]; exact hb) ht hbm hkl h
        | some bv1 =>
          simp only [hg] at h
          by_cases htt : bv1.tag ≠ v1.tag
          · rw [if_pos htt] at h
            by_cases hl : k1 ≠ "layers" ∨ f = false
            · rw [if_pos hl] at h; exact Except.noConfusion h
            · rw [if_neg hl] at h
              cases hm : mergeLayers bv1 v1 with
              | error e =>
                simp only [hm] at h; exact Except.noConfusion h
              | ok merged =>
                simp only [hm] at h
                exact ih rest _ f r hc hnd'
                  (by rw [getKey_setKey_ne _ _ _ _ hkne]; exact hb)
                  ht hbm hkl h
          · rw [if_neg htt] at h
            by_cases hl : k1 = "layers" ∧ f = true
            · rw [if_pos hl] at h
              cases hm : mergeLayers bv1 v1 with
              | error e =>
                simp only [hm] at h; exact Except.noConfusion h
              | ok merged =>
                simp only [hm] at h
                exact ih rest _ f r hc hnd'
                  (by rw [getKey_setKey_ne _ _ _ _ hkne]; exact hb)
                  ht hbm hkl h
            · rw [if_neg hl] at h
              have hstep :
                  ∀ w : Yaml,
                    mergeCfgF n rest (setKey b k1 w) f = .ok r →
                    getKey r k = some v := by
                intro w hw
                exact ih rest _ f r hc hnd'
                  (by rw [getKey_setKey_ne _ _ _ _ hkne]; exact hb)
                  ht hbm hkl hw
              match v1, bv1, h with
              | .map vm, .map bm, h =>
                cases hm : mergeCfgF n vm bm false with
                | error e =>
                  simp only [hm] at h; exact Except.noConfusion h
                | ok nb =>
                  simp only [hm] at h
                  exact hstep _ h
              | .null, bv1, h => exact hstep _ h
              | .bool _, bv1, h => exact hstep _ h
              | .int _, bv1, h => exact hstep _ h
              | .str _, bv1, h => exact hstep _ h
              | .seq _, bv1, h => exact hstep _ h
              | .map _, .null, h => exact hstep _ h
              | .map _, .bool _, h => exact hstep _ h
              | .map _, .int _, h => exact hstep _ h
              | .map _, .str _, h => exact hstep _ h
              | .map _, .seq _, h => exact hstep _ h

/-- A key (other than first-level `layers`) present in both documents
with differently-typed values makes the merge raise, whatever else the
documents contain. -/
theorem mergeCfgF_conflict {k : String} {v bv : Yaml} :
    ∀ (fuel : Nat) (c b : Doc) (f : Bool),
      getKey c k = some v → getKey b k = some bv →
      bv.tag ≠ v.tag → (k ≠ "layers" ∨ f = false) →
      isErr (mergeCfgF fuel c b f) = true := by
  intro fuel
  induction fuel with
  | zero => intro c b f _ _ _ _; rfl
  | succ n ih =>
    intro c b f hc hb ht hkl
    match c with
    | [] => rw [getKey] at hc; cases hc
    | (k1, v1) :: rest =>
      rw [getKey] at hc
      by_cases h1 : k1 = k
      · rw [if_pos h1] at hc
        injection hc with hc
        subst h1 hc
        simp only [mergeCfgF, hb]
        rw [if_pos ht, if_pos hkl]
        rfl
      · rw [if_neg h1] at hc
        have hkne : k ≠ k1 := fun hx => h1 hx.symm
        cases hg : getKey b k1 with
        | none =>
          simp only [mergeCfgF, hg]
          exact ih rest _ f hc
            (by rw [getKey_setKey_ne _ _ _ _ hkne]; exact hb) ht hkl
        | some bv1 =>
          simp only [mergeCfgF, hg]
          by_cases htt : bv1.tag ≠ v1.tag
          · rw [if_pos htt]
            by_cases hl : k1 ≠ "layers" ∨ f = false
            · rw [if_pos hl]; rfl
            · rw [if_neg hl]
              cases hm : mergeLayers bv1 v1 with
              | error e => rfl
              | ok merged =>
                exact ih rest _ f hc
                  (by rw [getKey_setKey_ne _ _ _ _ hkne]; exact hb) ht hkl
          · rw [if_neg htt]
            by_cases hl : k1 = "layers" ∧ f = true
            · rw [if_pos hl]
              cases hm : mergeLayers bv1 v1 with
              | error e => rfl
              | ok merged =>
                exact ih rest _ f hc
                  (by rw [getKey_setKey_ne _ _ _ _ hkne]; exact hb) ht hkl
            · rw [if_neg hl]
              have hstep :
                  ∀ w : Yaml,
                    isErr (mergeCfgF n rest (setKey b k1 w) f) = true := by
                intro w
                exact ih rest _ f hc
                  (by rw [getKey_setKey_ne _ _ _ _ hkne]; exact hb) ht hkl
              match v1, bv1 with
              | .map vm, .map bm =>
                cases hm : mergeCfgF n vm bm false with
                | error e => simp only [hm]; rfl
                | ok nb => simp only [hm]; exact hstep _
              | .null, bv1 => exact hstep _
              | .bool _, bv1 => exact hstep _
              | .int _, bv1 => exact hstep _
              | .str _, bv1 => exact hstep _
              | .seq _, bv1 => exact hstep _
              | .map _, .null => exact hstep _
              | .map _, .bool _ => exact hstep _
              | .map _, .int _ => exact hstep _
              | .map _, .str _ => exact hstep _
              | .map _, .seq _ => exact hstep _

/-! ## Claim theorems -/

/-- C1 (counterexample): the claim's second half fails at the top-level
`layers` key: both documents carry `layers` as same-typed, non-mapping
(sequence) values, the merge succeeds, yet the result's `layers` value is
the name-reconciled sequence, not the child document's value. -/
theorem C1_counterexample :
    getKey seqChild "layers" =
      some (Yaml.seq [.map [("name", .str "x"), ("a", .int 1)]]) ∧
    getKey seqBase "layers" =
      some (Yaml.seq [.map [("name", .str "x"), ("a", .int 0)],
                      .map [("name", .str "y"), ("b", .int 2)]]) ∧
    (Yaml.seq [.map [("name", Yaml.str "x"), ("a", Yaml.int 0)],
               .map [("name", Yaml.str "y"), ("b", Yaml.int 2)]]).tag =
      (Yaml.seq [.map [("name", Yaml.str "x"), ("a", Yaml.int 1)]]).tag ∧
    (Yaml.seq [.map [("name", Yaml.str "x"), ("a", Yaml.int 0)],
               .map [("name", Yaml.str "y"), ("b", Yaml.int 2)]]).isMap =
      false ∧
    mergeCfg seqChild seqBase true =
      .ok [("layers", .seq [.map [("name", .str "x"), ("a", .int 1)],
                            .map [("name", .str "y"), ("b", .int 2)]])] ∧
    (Yaml.seq [.map [("name", Yaml.str "x"), ("a", Yaml.int 1)],
               .map [("name", Yaml.str "y"), ("b", Yaml.int 2)]]) ≠
      Yaml.seq [.map [("name", Yaml.str "x"), ("a", Yaml.int 1)]] := by
  refine ⟨rfl, rfl, rfl, rfl, rfl, ?_⟩
  simp

/-- C1 (amended): merging child `A` into base `B` with disjoint top-level
keys succeeds and the result's key set is the union of both; and for every
shared key *other than top-level `layers`* whose values have the same
runtime type and whose base value is not a mapping, the child's value is
the one in the result. -/
theorem C1_amended :
    (∀ (A B : Doc) (f : Bool), (keys A).Nodup →
        (∀ k ∈ keys A, k ∉ keys B) →
        mergeCfg A B f = .ok (B ++ A) ∧
          ∀ k, k ∈ keys (B ++ A) ↔ k ∈ keys A ∨ k ∈ keys B) ∧
    (∀ (A B r : Doc) (f : Bool) (k : String) (v bv : Yaml),
        (k ≠ "layers" ∨ f = false) → (keys A).Nodup →
        getKey A k = some v → getKey B k = some bv →
        bv.tag = v.tag → bv.isMap = false →
        mergeCfg A B f = .ok r → getKey r k = some v) := by
  constructor
  · intro A B f hnd hdis
    refine ⟨mergeCfgF_disjoint (psize A) A B f (le_refl _) hnd hdis, ?_⟩
    intro k
    rw [keys_append]
    simp [or_comm]
  · intro A B r f k v bv hkl hnd hA hB ht hbm h
    exact mergeCfgF_shared (psize A) A B f r hA hnd hB ht hbm hkl h

/-- C1 (witness): the amended theorem applied at concrete documents:
`{a: 1}` merged into `{b: 2}` appends the child entry; for the shared
scalar key `x`, the child's `5` overrides the base's `3`. -/
theorem C1_witness :
    mergeCfg [("a", Yaml.int 1)] [("b", Yaml.int 2)] true =
      .ok [("b", Yaml.int 2), ("a", Yaml.int 1)] ∧
    getKey [("x", Yaml.int 5)] "x" = some (Yaml.int 5) :=
  ⟨(C1_amended.1 [("a", Yaml.int 1)] [("b", Yaml.int 2)] true
      (by decide) (by decide)).1,
   C1_amended.2 [("x", Yaml.int 5)] [("x", Yaml.int 3)]
      [("x", Yaml.int 5)] true "x" (Yaml.int 5) (Yaml.int 3)
      (Or.inl (by decide)) (by decide) rfl rfl rfl rfl rfl⟩

/-- C2 (counterexample): merging child layers `[{name: x, a: 1}]` into
base layers `{x: {a: 0, b: 2}, y: {c: 3}}` replaces the whole `x` entry
with the child's entry (`dict.update` is an entry-wise overwrite, not a
field overlay), so the merged `x` layer has no `b` field at all. -/
theorem C2_counterexample :
    mergeCfg seqChild mapBase true =
      .ok [("layers", .seq [.map [("name", .str "x"), ("a", .int 1)],
                            .map [("c", .int 3), ("name", .str "y")]])] ∧
    getKey [("name", Yaml.str "x"), ("a", Yaml.int 1)] "b" = none :=
  ⟨rfl, rfl⟩

/-- C2 (amended): the merged result is in sequence form; the `x` layer is
exactly the child's entry (so `a = 1`, and base's `b = 2` is dropped); the
`y` layer keeps `c = 3` and gains its `name` field. -/
theorem C2_amended :
    mergeCfg seqChild mapBase true =
      .ok [("layers", .seq [.map [("name", .str "x"), ("a", .int 1)],
                            .map [("c", .int 3), ("name", .str "y")]])] ∧
    getKey [("name", Yaml.str "x"), ("a", Yaml.int 1)] "a" =
      some (Yaml.int 1) ∧
    getKey [("c", Yaml.int 3), ("name", Yaml.str "y")] "c" =
      some (Yaml.int 3) ∧
    getKey [("c", Yaml.int 3), ("name", Yaml.str "y")] "name" =
      some (Yaml.str "y") :=
  ⟨rfl, rfl, rfl, rfl⟩

/-- C7: a key (other than top-level `layers`) present in both documents
with differently-shaped values makes `_mergeCfg` raise instead of
producing a result. -/
theorem C7_theorem :
    ∀ (A B : Doc) (f : Bool) (k : String) (v bv : Yaml),
      getKey A k = some v → getKey B k = some bv →
      bv.tag ≠ v.tag → (k ≠ "layers" ∨ f = false) →
      isErr (mergeCfg A B f) = true := by
  intro A B f k v bv hA hB ht hkl
  exact mergeCfgF_conflict (psize A) A B f hA hB ht hkl

/-- C7 (witness): merging `{caches: [1, 2]}` into `{caches: {c: null}}`
raises. -/
theorem C7_witness :
    isErr (mergeCfg [("caches", Yaml.seq [.int 1, .int 2])]
      [("caches", Yaml.map [("c", Yaml.null)])] true) = true :=
  C7_theorem [("caches", Yaml.seq [.int 1, .int 2])]
    [("caches", Yaml.map [("c", Yaml.null)])] true "caches"
    (Yaml.seq [.int 1, .int 2]) (Yaml.map [("c", Yaml.null)])
    rfl rfl (by decide) (Or.inl (by decide))

/-- C4: with no prior application, `changedOnly` is forced off, so the
call behaves exactly like a `changedOnly=false` call; and starting from a
fresh wrapper, a successful `createProxy(changedOnly=true)` returns
`true`, while an immediately repeated call with an unchanged modification
timestamp returns `false` and leaves the state untouched. -/
theorem C4_theorem :
    (∀ (env : ProxyEnv) (st : WState) (c : Bool), st.mapproxy = none →
        createProxy env st c = createProxy env st false) ∧
    (∀ (env : ProxyEnv) (st : WState) (m : List (String × List Doc))
        (a : Application), st.mapproxy = none →
        env.configExists = true → env.buildConfig = .ok m →
        env.buildApp = .ok a →
        (createProxy env st true).1 = .ok true ∧
        createProxy env (createProxy env st true).2 true =
          (.ok false, (createProxy env st true).2)) := by
  constructor
  · intro env st c h
    unfold createProxy
    rw [h]
    rfl
  · intro env st m a hm hex hcfg happ
    have h1 : createProxy env st true = (.ok true,
        { mapproxy := some a, configTimeStamp := some env.mtime,
          fatalError := none, handlerFatal := none,
          layerMappings := m }) := by
      unfold createProxy
      rw [hm, hex, hcfg, happ]
      simp [getFatalErrorReset]
    refine ⟨by rw [h1], ?_⟩
    rw [h1]
    unfold createProxy
    simp [hex]

/-- C4 (witness): the theorem applied to a fresh wrapper and an oracle
whose build steps succeed. -/
theorem C4_witness :
    createProxy okEnv initialState true =
      createProxy okEnv initialState false ∧
    (createProxy okEnv initialState true).1 = .ok true ∧
    createProxy okEnv (createProxy okEnv initialState true).2 true =
      (.ok false, (createProxy okEnv initialState true).2) :=
  ⟨C4_theorem.1 okEnv initialState true rfl,
   C4_theorem.2 okEnv initialState [("l", [])] ⟨1⟩ rfl rfl rfl rfl⟩

/-- C5: the status is `unknown` on a fresh wrapper; `ok` with no reported
error whenever an application is held; `error` carrying the recorded
message when none is held and a fatal error is present — and the three
statuses characterize exactly those three situations. -/
theorem C5_theorem :
    getStatus initialState =
      { running := false, status := "unknown", lastError := none } ∧
    (∀ (st : WState) (a : Application), st.mapproxy = some a →
      getStatus st =
        { running := true, status := "ok", lastError := none }) ∧
    (∀ st : WState, st.mapproxy = none → getFatalErrorView st ≠ none →
      getStatus st = { running := false, status := "error",
                       lastError := getFatalErrorView st }) ∧
    (∀ st : WState,
      ((getStatus st).status = "ok" ↔ st.mapproxy ≠ none) ∧
      ((getStatus st).status = "error" ↔
        st.mapproxy = none ∧ getFatalErrorView st ≠ none) ∧
      ((getStatus st).status = "unknown" ↔
        st.mapproxy = none ∧ getFatalErrorView st = none)) := by
  refine ⟨rfl, ?_, ?_, ?_⟩
  · intro st a h
    unfold getStatus
    rw [h]
  · intro st h he
    unfold getStatus
    rw [h]
    cases hv : getFatalErrorView st with
    | none => exact absurd hv he
    | some e => simp
  · intro st
    unfold getStatus
    cases hm : st.mapproxy with
    | some a => simp
    | none =>
      cases hv : getFatalErrorView st with
      | none => simp
      | some e => simp

/-- C5 (witness): the theorem applied at concrete states: an application
held together with a stale fatal error still reports `ok`; no application
plus a fatal error reports `error` with the message. -/
theorem C5_witness :
    getStatus ⟨some ⟨1⟩, none, some "stale", none, []⟩ =
      { running := true, status := "ok", lastError := none } ∧
    getStatus ⟨none, none, some "boom", none, []⟩ =
      { running := false, status := "error", lastError := some "boom" } :=
  ⟨C5_theorem.2.1 ⟨some ⟨1⟩, none, some "stale", none, []⟩ ⟨1⟩ rfl,
   C5_theorem.2.2.1 ⟨none, none, some "boom", none, []⟩ rfl
     (by simp [getFatalErrorView])⟩

/-- C6: every failure of a rebuild's effectful steps (configuration
build/persist or engine factory) makes `createProxy` re-raise that
exception, clear the layer mappings, record the message into the fatal
slot, and leave no application installed. -/
theorem C6_theorem :
    ∀ (env : ProxyEnv) (st : WState) (c : Bool) (e : String),
      env.configExists = true →
      (c = false ∨ st.mapproxy = none ∨
        st.configTimeStamp ≠ some env.mtime) →
      (env.buildConfig = .error e ∨
        (∃ m, env.buildConfig = .ok m ∧ env.buildApp = .error e)) →
      (createProxy env st c).1 = .error e ∧
      (createProxy env st c).2.layerMappings = [] ∧
      (createProxy env st c).2.fatalError = some e ∧
      (createProxy env st c).2.mapproxy = none := by
  intro env st c e hex hno herr
  have hcond :
      ¬(((¬st.mapproxy = none ∧ ¬st.configTimeStamp = none) ∧ c = true) ∧
        st.configTimeStamp = some env.mtime) := by
    rcases hno with hc | hm | hts
    · subst hc
      rintro ⟨⟨_, hce⟩, _⟩
      cases hce
    · rintro ⟨⟨⟨hm1, _⟩, _⟩, _⟩
      exact hm1 hm
    · rintro ⟨_, hts1⟩
      exact hts hts1
  unfold createProxy
  rcases herr with hc | ⟨m, hcm, ha⟩
  · simp [hex, hc, hcond]
  · simp [hex, hcm, ha, hcond]

/-- C6 (witness): the theorem applied to a fresh wrapper and an oracle
whose engine factory raises `boom`. -/
theorem C6_witness :
    (createProxy failEnv initialState true).1 = .error "boom" ∧
    (createProxy failEnv initialState true).2.layerMappings = [] ∧
    (createProxy failEnv initialState true).2.fatalError = some "boom" ∧
    (createProxy failEnv initialState true).2.mapproxy = none :=
  C6_theorem failEnv initialState true "boom" rfl (Or.inr (Or.inl rfl))
    (Or.inr ⟨[("l", [])], rfl, rfl⟩)

/-! ## Lemmas about _getWsgiEnv -/

theorem ne_HTTP (k x : String) (hk : startsWithHTTP k = false) :
    k ≠ "HTTP_" ++ x := by
  intro heq
  subst heq
  rw [startsWithHTTP] at hk
  rw [String.data_append] at hk
  exact Bool.noConfusion hk

/-- The header-folding loop writes only `HTTP_`-prefixed keys, so every
other key keeps its prior value. -/
theorem addHeaders_preserve (k : String) (hk : startsWithHTTP k = false) :
    ∀ (hs : List (String × String)) (env : List (String × String)),
      getKey (addHeaders env hs) k = getKey env k := by
  intro hs
  induction hs with
  | nil => intro env; rfl
  | cons p rest ih =>
    intro env
    obtain ⟨k0, v0⟩ := p
    show getKey (addHeaders _ rest) k = _
    rw [ih]
    by_cases hh : hasKey env (headerKey k0) = true
    · simp [hh]
    · simp only [Bool.not_eq_true] at hh
      simp only [hh, Bool.false_eq_true, if_false]
      cases hg : getKey env ("HTTP_" ++ headerKey k0) with
      | some old =>
        simp only [hg]
        exact getKey_setKey_ne _ _ _ _ (ne_HTTP k _ hk)
      | none =>
        simp only [hg]
        exact getKey_setKey_ne _ _ _ _ (ne_HTTP k _ hk)

/-- The conditional tail of the environment synthesis only assigns the
four host/content keys, so every other key reads through to the
unconditional front. -/
theorem wsgiEnvBase_lookup (p : String) (h : Handler) (k : String)
    (h1 : k ≠ "REMOTE_HOST") (h2 : k ≠ "REMOTE_ADDR")
    (h3 : k ≠ "CONTENT_TYPE") (h4 : k ≠ "CONTENT_LENGTH") :
    getKey (wsgiEnvBase p h) k = getKey (wsgiEnvCore p h) k := by
  unfold wsgiEnvBase
  cases hct : headerGetCI h.headers "content-type" with
  | none =>
    cases hcl : headerGetCI h.headers "content-length" with
    | none =>
      simp only [hct, hcl]
      rw [getKey_setKey_ne _ _ _ _ h3, getKey_setKey_ne _ _ _ _ h2]
      by_cases hr : h.addressString ≠ h.clientAddress
      · rw [if_pos hr, getKey_setKey_ne _ _ _ _ h1]
      · rw [if_neg hr]
    | some l =>
      simp only [hct, hcl]
      by_cases hl : l ≠ ""
      · rw [if_pos hl, getKey_setKey_ne _ _ _ _ h4,
          getKey_setKey_ne _ _ _ _ h3, getKey_setKey_ne _ _ _ _ h2]
        by_cases hr : h.addressString ≠ h.clientAddress
        · rw [if_pos hr, getKey_setKey_ne _ _ _ _ h1]
        · rw [if_neg hr]
      · rw [if_neg hl, getKey_setKey_ne _ _ _ _ h3,
          getKey_setKey_ne _ _ _ _ h2]
        by_cases hr : h.addressString ≠ h.clientAddress
        · rw [if_pos hr, getKey_setKey_ne _ _ _ _ h1]
        · rw [if_neg hr]
  | some ct =>
    cases hcl : headerGetCI h.headers "content-length" with
    | none =>
      simp only [hct, hcl]
      rw [getKey_setKey_ne _ _ _ _ h3, getKey_setKey_ne _ _ _ _ h2]
      by_cases hr : h.addressString ≠ h.clientAddress
      · rw [if_pos hr, getKey_setKey_ne _ _ _ _ h1]
      · rw [if_neg hr]
    | some l =>
      simp only [hct, hcl]
      by_cases hl : l ≠ ""
      · rw [if_pos hl, getKey_setKey_ne _ _ _ _ h4,
          getKey_setKey_ne _ _ _ _ h3, getKey_setKey_ne _ _ _ _ h2]
        by_cases hr : h.addressString ≠ h.clientAddress
        · rw [if_pos hr, getKey_setKey_ne _ _ _ _ h1]
        · rw [if_neg hr]
      · rw [if_neg hl, getKey_setKey_ne _ _ _ _ h3,
          getKey_setKey_ne _ _ _ _ h2]
        by_cases hr : h.addressString ≠ h.clientAddress
        · rw [if_pos hr, getKey_setKey_ne _ _ _ _ h1]
        · rw [if_neg hr]

set_option maxHeartbeats 2000000 in
/-- C3: for every handler requesting `/prefix/tiles/1/2/3.png?x=1` with
prefix `/prefix`, the synthesized environment maps `PATH_INFO` to
`/tiles/1/2/3.png` and `QUERY_STRING` to `x=1`; two repeated `X-Custom`
headers with (whitespace-clean) values `a` and `b` fold into
`HTTP_X_CUSTOM = "a,b"`; and a single header whose transformed name is
already an assigned environment key is skipped, leaving the environment
exactly as synthesized without it. -/
theorem C3_theorem :
    (∀ h : Handler, h.path = "/prefix/tiles/1/2/3.png?x=1" →
      getKey (getWsgiEnv "/prefix" h) "PATH_INFO" =
        some "/tiles/1/2/3.png" ∧
      getKey (getWsgiEnv "/prefix" h) "QUERY_STRING" = some "x=1") ∧
    (∀ a b : String, trimStr a = a → trimStr b = b →
      getKey (getWsgiEnv "/prefix" (xCustomHandler a b)) "HTTP_X_CUSTOM" =
        some (a ++ "," ++ b)) ∧
    (∀ (p : String) (h : Handler) (n v : String),
      h.headers = [(n, v)] →
      hasKey (wsgiEnvBase p h) (headerKey n) = true →
      getWsgiEnv p h = wsgiEnvBase p h) := by
  refine ⟨?_, ?_, ?_⟩
  · intro h hp
    constructor
    · unfold getWsgiEnv
      rw [addHeaders_preserve "PATH_INFO" rfl,
        wsgiEnvBase_lookup _ _ _ (by decide) (by decide) (by decide)
          (by decide)]
      simp only [wsgiEnvCore]
      rw [hp]
      rfl
    · unfold getWsgiEnv
      rw [addHeaders_preserve "QUERY_STRING" rfl,
        wsgiEnvBase_lookup _ _ _ (by decide) (by decide) (by decide)
          (by decide)]
      simp only [wsgiEnvCore]
      rw [hp]
      rfl
  · intro a b ha hb
    have hx : getKey (getWsgiEnv "/prefix" (xCustomHandler a b))
        "HTTP_X_CUSTOM" = some (trimStr a ++ "," ++ trimStr b) := rfl
    rw [hx, ha, hb]
  · intro p h n v hh hk
    have hstep : getWsgiEnv p h = addHeaders (wsgiEnvBase p h) [(n, v)] := by
      rw [getWsgiEnv, hh]
    rw [hstep]
    show (if hasKey (wsgiEnvBase p h) (headerKey n) = true then
        wsgiEnvBase p h
      else
        match getKey (wsgiEnvBase p h) ("HTTP_" ++ headerKey n) with
        | some old =>
          setKey (wsgiEnvBase p h) ("HTTP_" ++ headerKey n)
            (old ++ "," ++ trimStr v)
        | none =>
          setKey (wsgiEnvBase p h) ("HTTP_" ++ headerKey n) (trimStr v)) =
      wsgiEnvBase p h
    rw [if_pos hk]

/-- C3 (witness): the theorem applied at a concrete handler for
`GET /prefix/tiles/1/2/3.png?x=1` with `X-Custom: a` and `X-Custom: b`,
and at a handler carrying a `Server-Name` header that collides with the
assigned `SERVER_NAME` key. -/
theorem C3_witness :
    getKey (getWsgiEnv "/prefix" (xCustomHandler "a" "b")) "PATH_INFO" =
      some "/tiles/1/2/3.png" ∧
    getKey (getWsgiEnv "/prefix" (xCustomHandler "a" "b"))
      "HTTP_X_CUSTOM" = some "a,b" ∧
    getWsgiEnv "/prefix" collidingHandler =
      wsgiEnvBase "/prefix" collidingHandler :=
  ⟨(C3_theorem.1 (xCustomHandler "a" "b") rfl).1,
   C3_theorem.2.1 "a" "b" rfl rfl,
   C3_theorem.2.2 "/prefix" collidingHandler "Server-Name" "evil" rfl rfl⟩

/-! ## Lemmas about _mergeBaseFiles -/

theorem getKey_eraseKey_self {α : Type} (m : List (String × α))
    (k : String) : getKey (eraseKey m k) k = none := by
  induction m with
  | nil => rfl
  | cons p rest ih =>
    obtain ⟨k1, v⟩ := p
    by_cases h : k1 = k <;> simp [eraseKey, getKey, h] at ih ⊢ <;>
      simpa [eraseKey] using ih

theorem mergeCfg_preserve {k : String} {c b r : Doc} {f : Bool}
    (hk : getKey c k = none) (h : mergeCfg c b f = .ok r) :
    getKey r k = getKey b k :=
  mergeCfgF_preserve (psize c) c b f r hk h

/-- A run of absolute base paths is skipped without touching anything. -/
theorem mergeBaseGo_abs_skip (load : String → Except String Doc)
    (dir : String) (bs1 : List String) (rest : List String) (cfg : Doc)
    (habs : ∀ b ∈ bs1, isAbs b = true) :
    mergeBaseGo load dir (bs1 ++ rest) cfg = mergeBaseGo load dir rest cfg := by
  induction bs1 with
  | nil => rfl
  | cons b bs ih =>
    have hb : isAbs b = true := habs b (by simp)
    rw [List.cons_append, mergeBaseGo, if_pos hb]
    exact ih (fun x hx => habs x (by simp [hx]))

theorem mergeBaseGo_all_abs (load : String → Except String Doc)
    (dir : String) (bs : List String) (cfg : Doc)
    (habs : ∀ b ∈ bs, isAbs b = true) :
    mergeBaseGo load dir bs cfg = .ok cfg := by
  have := mergeBaseGo_abs_skip load dir bs [] cfg habs
  rw [List.append_nil] at this
  rw [this]
  rfl

/-- The loop keeps the working document free of a `base` key when the
loader only produces `base`-free documents. -/
theorem mergeBaseGo_no_base (load : String → Except String Doc)
    (dir : String)
    (hload : ∀ f d, load f = .ok d → getKey d "base" = none) :
    ∀ (bs : List String) (cfg : Doc) (r : Doc),
      getKey cfg "base" = none →
      mergeBaseGo load dir bs cfg = .ok r → getKey r "base" = none := by
  intro bs
  induction bs with
  | nil =>
    intro cfg r hc h
    rw [mergeBaseGo] at h
    cases h
    exact hc
  | cons b rest ih =>
    intro cfg r hc h
    rw [mergeBaseGo] at h
    by_cases hb : isAbs b = true
    · rw [if_pos hb] at h
      exact ih cfg r hc h
    · rw [if_neg hb] at h
      cases hl : load (pathJoin dir b) with
      | error e => rw [hl] at h; exact Except.noConfusion h
      | ok baseCfg =>
        simp only [hl] at h
        cases hm : mergeCfg cfg baseCfg true with
        | error e => rw [hm] at h; exact Except.noConfusion h
        | ok cfg1 =>
          simp only [hm] at h
          have h1 : getKey cfg1 "base" = none := by
            rw [mergeCfg_preserve hc hm]
            exact hload _ _ hl
          exact ih cfg1 r h1 h

/-- `_mergeBaseFiles` (with any loader producing `base`-free documents)
returns a document with no `base` key. -/
theorem mergeBaseFilesWith_no_base (load : String → Except String Doc)
    (hload : ∀ f d, load f = .ok d → getKey d "base" = none)
    (cfg : Doc) (dir : String) (r : Doc)
    (h : mergeBaseFilesWith load cfg dir = .ok r) :
    getKey r "base" = none := by
  rw [mergeBaseFilesWith] at h
  cases hb : getKey cfg "base" with
  | none =>
    rw [hb] at h
    cases h
    exact hb
  | some bv =>
    simp only [hb] at h
    cases hbs : baseFileList bv with
    | error e => rw [hbs] at h; exact Except.noConfusion h
    | ok bs =>
      simp only [hbs] at h
      exact mergeBaseGo_no_base load dir hload bs _ r
        (getKey_eraseKey_self cfg "base") h

/-- `_loadConfigFile` always returns a document with no `base` key. -/
theorem loadConfigFile_no_base (fs : FileSys) :
    ∀ (fuel : Nat) (file : String) (r : Doc),
      loadConfigFile fs fuel file = .ok r → getKey r "base" = none := by
  intro fuel
  induction fuel with
  | zero => intro file r h; exact Except.noConfusion h
  | succ n ih =>
    intro file r h
    have h' : (match fs file with
        | none => Except.error ("config file " ++ file ++ " not found")
        | some cfg =>
          mergeBaseFilesWith (loadConfigFile fs n) cfg (dirname file)) =
        .ok r := h
    cases hf : fs file with
    | none => rw [hf] at h'; exact Except.noConfusion h'
    | some cfg =>
      simp only [hf] at h'
      exact mergeBaseFilesWith_no_base (loadConfigFile fs n)
        (fun f d => ih f d) cfg (dirname file) r h'

/-- C8: `_mergeBaseFiles` always removes the `base` key (the result of a
successful resolution has none); when every `base` entry is an absolute
path the document is returned unchanged apart from the removed key (no
base document is loaded or merged); and a relative entry among absolute
ones is loaded via the configured loader and the working document is
merged into it. -/
theorem C8_theorem :
    (∀ (fs : FileSys) (fuel : Nat) (cfg : Doc) (dir : String) (r : Doc),
      mergeBaseFiles fs fuel cfg dir = .ok r → getKey r "base" = none) ∧
    (∀ (fs : FileSys) (fuel : Nat) (cfg : Doc) (dir : String)
        (bv : Yaml) (bs : List String),
      getKey cfg "base" = some bv → baseFileList bv = .ok bs →
      (∀ b ∈ bs, isAbs b = true) →
      mergeBaseFiles fs fuel cfg dir = .ok (eraseKey cfg "base")) ∧
    (∀ (fs : FileSys) (fuel : Nat) (cfg : Doc) (dir : String) (bv : Yaml)
        (bs1 : List String) (rel : String) (bs2 : List String),
      getKey cfg "base" = some bv →
      baseFileList bv = .ok (bs1 ++ rel :: bs2) →
      (∀ b ∈ bs1, isAbs b = true) → (∀ b ∈ bs2, isAbs b = true) →
      isAbs rel = false →
      mergeBaseFiles fs fuel cfg dir =
        match loadConfigFile fs fuel (pathJoin dir rel) with
        | .error e => .error e
        | .ok baseCfg => mergeCfg (eraseKey cfg "base") baseCfg true) := by
  refine ⟨?_, ?_, ?_⟩
  · intro fs fuel cfg dir r h
    exact mergeBaseFilesWith_no_base (loadConfigFile fs fuel)
      (loadConfigFile_no_base fs fuel) cfg dir r h
  · intro fs fuel cfg dir bv bs hb hbs habs
    rw [mergeBaseFiles, mergeBaseFilesWith]
    simp only [hb, hbs]
    exact mergeBaseGo_all_abs _ dir bs _ habs
  · intro fs fuel cfg dir bv bs1 rel bs2 hb hbs h1 h2 hrel
    rw [mergeBaseFiles, mergeBaseFilesWith]
    simp only [hb, hbs]
    rw [mergeBaseGo_abs_skip _ dir bs1 (rel :: bs2) _ h1]
    rw [mergeBaseGo, if_neg (by rw [hrel]; exact Bool.noConfusion)]
    cases hl : loadConfigFile fs fuel (pathJoin dir rel) with
    | error e => rfl
    | ok baseCfg =>
      show (match mergeCfg (eraseKey cfg "base") baseCfg true with
        | Except.error e => Except.error e
        | Except.ok cfg1 =>
          mergeBaseGo (loadConfigFile fs fuel) dir bs2 cfg1) =
        mergeCfg (eraseKey cfg "base") baseCfg true
      cases hm : mergeCfg (eraseKey cfg "base") baseCfg true with
      | error e => rfl
      | ok cfg1 =>
        simp only
        exact mergeBaseGo_all_abs _ dir bs2 _ h2

/-- C8 (witness): the theorem applied at concrete documents: a document
whose only `base` entry is absolute comes back unchanged minus the `base`
key and is `base`-free; a relative entry next to an absolute one loads
`d/r.yaml` and merges into it. -/
theorem C8_witness :
    mergeBaseFiles fsEmpty 3 [("base", .str "/abs/x"), ("a", .int 1)]
      "d" = .ok [("a", .int 1)] ∧
    getKey [("a", Yaml.int 1)] "base" = none ∧
    mergeBaseFiles fsOne 3
      [("base", .seq [.str "/abs", .str "r.yaml"]), ("a", .int 1)] "d" =
      .ok [("k", .int 2), ("a", .int 1)] :=
  ⟨C8_theorem.2.1 fsEmpty 3 [("base", .str "/abs/x"), ("a", .int 1)] "d"
      (.str "/abs/x") ["/abs/x"] rfl rfl (by decide),
   C8_theorem.1 fsEmpty 3 [("base", .str "/abs/x"), ("a", .int 1)] "d"
      [("a", Yaml.int 1)]
      (C8_theorem.2.1 fsEmpty 3 [("base", .str "/abs/x"), ("a", .int 1)]
        "d" (.str "/abs/x") ["/abs/x"] rfl rfl (by decide)),
   C8_theorem.2.2 fsOne 3
      [("base", .seq [.str "/abs", .str "r.yaml"]), ("a", .int 1)] "d"
      (.seq [.str "/abs", .str "r.yaml"]) ["/abs"] "r.yaml" [] rfl rfl
      (by decide) (by decide) (by decide)⟩

/-! ## Lemmas about the layer conversions -/

/-- Re-assigning the value a key already holds changes nothing. -/
theorem setKey_id {α : Type} {m : List (String × α)} {k : String} {v : α}
    (h : getKey m k = some v) : setKey m k v = m := by
  induction m with
  | nil => exact Option.noConfusion h
  | cons p rest ih =>
    obtain ⟨k1, w⟩ := p
    rw [getKey] at h
    by_cases h1 : k1 = k
    · rw [if_pos h1] at h
      injection h with h
      rw [setKey, if_pos h1, h1, h]
    · rw [if_neg h1] at h
      rw [setKey, if_neg h1, ih h]

theorem getKey_some_mem {α : Type} {m : List (String × α)} {k : String}
    {v : α} (h : getKey m k = some v) : (k, v) ∈ m := by
  induction m with
  | nil => exact Option.noConfusion h
  | cons p rest ih =>
    obtain ⟨k1, w⟩ := p
    rw [getKey] at h
    by_cases h1 : k1 = k
    · rw [if_pos h1] at h
      injection h with h
      subst h1 h
      exact List.mem_cons_self _ _
    · rw [if_neg h1] at h
      exact List.mem_cons_of_mem _ (ih h)

theorem mem_setKey {α : Type} {m : List (String × α)} {k : String}
    {v : α} {e : String × α} (h : e ∈ setKey m k v) :
    e ∈ m ∨ e = (k, v) := by
  induction m with
  | nil =>
    rw [setKey] at h
    rcases List.mem_singleton.mp h with h
    exact Or.inr h
  | cons p rest ih =>
    obtain ⟨k1, w⟩ := p
    rw [setKey] at h
    by_cases h1 : k1 = k
    · rw [if_pos h1] at h
      rcases List.mem_cons.mp h with h | h
      · exact Or.inr h
      · exact Or.inl (List.mem_cons_of_mem _ h)
    · rw [if_neg h1] at h
      rcases List.mem_cons.mp h with h | h
      · exact Or.inl (h ▸ List.mem_cons_self _ _)
      · rcases ih h with h | h
        · exact Or.inl (List.mem_cons_of_mem _ h)
        · exact Or.inr h

/-- `layerListToDict`'s loop on a sequence of mappings presented with
their own names accumulates exactly those pairs, in order. -/
theorem layerPairsOf_named :
    ∀ (ps : List (String × Yaml)) (acc : Doc),
      (∀ p ∈ ps, ∃ vm, p.2 = Yaml.map vm ∧
        getKey vm "name" = some (.str p.1)) →
      (keys acc ++ keys ps).Nodup →
      layerPairsOf (ps.map Prod.snd) acc = .ok (acc ++ ps) := by
  intro ps
  induction ps with
  | nil => intro acc _ _; simp [layerPairsOf]
  | cons p rest ih =>
    intro acc hwf hnd
    obtain ⟨k, v⟩ := p
    obtain ⟨vm, hv, hname⟩ := hwf (k, v) (List.mem_cons_self _ _)
    simp only at hv
    subst hv
    rw [List.map_cons, layerPairsOf]
    have hpair : layerEntryToPair (Yaml.map vm) = .ok (k, Yaml.map vm) := by
      rw [layerEntryToPair, hname]
    simp only [hpair]
    have hknotacc : k ∉ keys acc := by
      rw [keys_cons] at hnd
      have := (List.nodup_append.mp hnd).2.2
      intro hmem
      exact this hmem (List.mem_cons_self _ _)
    rw [setKey_of_getKey_none _ (getKey_eq_none_of_not_mem hknotacc)]
    have hnd' : (keys (acc ++ [(k, Yaml.map vm)]) ++ keys rest).Nodup := by
      rw [keys_append, List.append_assoc]
      simpa [keys, keys_cons] using hnd
    rw [ih (acc ++ [(k, Yaml.map vm)])
      (fun q hq => hwf q (List.mem_cons_of_mem _ hq)) hnd']
    simp

/-- `layerDictToList`'s loop on a dictionary of mappings each already
carrying its key as `name` returns the values unchanged. -/
theorem layerValuesOf_named :
    ∀ ps : Doc,
      (∀ p ∈ ps, ∃ vm, p.2 = Yaml.map vm ∧
        getKey vm "name" = some (.str p.1)) →
      layerValuesOf ps = .ok (ps.map Prod.snd) := by
  intro ps
  induction ps with
  | nil => intro _; rfl
  | cons p rest ih =>
    intro hwf
    obtain ⟨k, v⟩ := p
    obtain ⟨vm, hv, hname⟩ := hwf (k, v) (List.mem_cons_self _ _)
    simp only at hv
    subst hv
    rw [layerValuesOf]
    simp only
    rw [ih (fun q hq => hwf q (List.mem_cons_of_mem _ hq))]
    simp only [setKey_id hname]
    rfl

/-- `layerDictToList`'s loop on a dictionary of arbitrary mappings
inserts each key as the value's `name`. -/
theorem layerValuesOf_maps :
    ∀ d : Doc, (∀ p ∈ d, p.2.isMap = true) →
      layerValuesOf d = .ok ((d.map insLayerName).map Prod.snd) := by
  intro d
  induction d with
  | nil => intro _; rfl
  | cons p rest ih =>
    intro hwf
    obtain ⟨k, v⟩ := p
    have hm := hwf (k, v) (List.mem_cons_self _ _)
    match v, hm with
    | .map vm, _ =>
      rw [layerValuesOf]
      simp only
      rw [ih (fun q hq => hwf q (List.mem_cons_of_mem _ hq))]
      rfl

theorem keys_map_insLayerName (d : Doc) :
    keys (d.map insLayerName) = keys d := by
  induction d with
  | nil => rfl
  | cons p rest ih =>
    obtain ⟨k, v⟩ := p
    have hfst : (insLayerName (k, v)).1 = k := by
      cases v <;> rfl
    simp only [List.map_cons, keys_cons]
    rw [show keys (insLayerName (k, v) :: List.map insLayerName rest) =
      (insLayerName (k, v)).1 :: keys (List.map insLayerName rest) from rfl]
    rw [hfst, ih]

/-- C9 (counterexample): conversion is not total — a sequence containing
a layer entry with no `name` makes `layerListToDict` raise instead of
producing the mapping form. -/
theorem C9_counterexample :
    layerListToDict (.seq [.map []]) =
      .error "missing name in list layerlist" := rfl

/-- C9 (amended): on well-formed layer collections the two conversions
are mutually inverse: a sequence of mappings carrying distinct string
names converts to the name-keyed dictionary and back unchanged; a
dictionary of mappings with distinct keys converts to the sequence form
and back, up to each value deterministically gaining its key as `name`. -/
theorem C9_amended :
    (∀ ps : Doc,
      (∀ p ∈ ps, ∃ vm, p.2 = Yaml.map vm ∧
        getKey vm "name" = some (.str p.1)) →
      (keys ps).Nodup →
      layerListToDict (.seq (ps.map Prod.snd)) = .ok ps ∧
      layerDictToList ps = .ok (.seq (ps.map Prod.snd))) ∧
    (∀ d : Doc, (∀ p ∈ d, p.2.isMap = true) → (keys d).Nodup →
      layerDictToList d = .ok (.seq ((d.map insLayerName).map Prod.snd)) ∧
      layerListToDict (.seq ((d.map insLayerName).map Prod.snd)) =
        .ok (d.map insLayerName)) := by
  constructor
  · intro ps hwf hnd
    constructor
    · show layerPairsOf (ps.map Prod.snd) [] = .ok ps
      have h := layerPairsOf_named ps [] hwf (by simpa [keys] using hnd)
      simpa using h
    · rw [layerDictToList, layerValuesOf_named ps hwf]
  · intro d hwf hnd
    have hwf' : ∀ p ∈ d.map insLayerName, ∃ vm, p.2 = Yaml.map vm ∧
        getKey vm "name" = some (.str p.1) := by
      intro p hp
      rcases List.mem_map.mp hp with ⟨q, hq, hpq⟩
      obtain ⟨k, v⟩ := q
      have hm := hwf (k, v) hq
      match v, hm with
      | .map vm, _ =>
        rw [← hpq]
        exact ⟨setKey vm "name" (.str k), rfl,
          getKey_setKey_self vm "name" (.str k)⟩
    constructor
    · rw [layerDictToList, layerValuesOf_maps d hwf]
    · show layerPairsOf ((d.map insLayerName).map Prod.snd) [] =
        .ok (d.map insLayerName)
      have hnd' : (keys ([] : Doc) ++ keys (d.map insLayerName)).Nodup := by
        simpa [keys_map_insLayerName] using hnd
      have h := layerPairsOf_named (d.map insLayerName) [] hwf' hnd'
      simpa using h

/-- C9 (witness): the amended theorem applied at a one-layer sequence
`[{name: x, a: 1}]` and a one-layer dictionary `{y: {c: 3}}`. -/
theorem C9_witness :
    layerListToDict (.seq [.map [("name", .str "x"), ("a", .int 1)]]) =
      .ok [("x", .map [("name", .str "x"), ("a", .int 1)])] ∧
    layerDictToList [("x", .map [("name", .str "x"), ("a", .int 1)])] =
      .ok (.seq [.map [("name", .str "x"), ("a", .int 1)]]) ∧
    layerDictToList [("y", .map [("c", .int 3)])] =
      .ok (.seq [.map [("c", .int 3), ("name", .str "y")]]) ∧
    layerListToDict (.seq [.map [("c", .int 3), ("name", .str "y")]]) =
      .ok [("y", .map [("c", .int 3), ("name", .str "y")])] := by
  have h1 := C9_amended.1 [("x", .map [("name", .str "x"), ("a", .int 1)])]
    (by
      intro p hp
      rw [List.mem_singleton] at hp
      subst hp
      exact ⟨[("name", .str "x"), ("a", .int 1)], rfl, rfl⟩)
    (by simp [keys])
  have h2 := C9_amended.2 [("y", .map [("c", .int 3)])]
    (by
      intro p hp
      rw [List.mem_singleton] at hp
      subst hp
      rfl)
    (by simp [keys])
  exact ⟨h1.1, h1.2, h2.1, h2.2⟩

/-! ## Lemmas about parseAndCheckConfig -/

theorem seedOnly_preserve {offline : Bool} {cfg c' : Doc} {k : String}
    (hk : k ≠ "sources") (h : seedOnly offline cfg = .ok c') :
    getKey c' k = getKey cfg k := by
  rw [seedOnly] at h
  by_cases ho : offline = false
  · rw [if_pos ho] at h
    cases h
    rfl
  · rw [if_neg ho] at h
    cases hs : getKey cfg "sources" with
    | none =>
      rw [hs] at h
      cases h
      rfl
    | some sv =>
      simp only [hs] at h
      match sv, h with
      | .null, h => cases h; rfl
      | .map m, h =>
        replace h : (match seedEntries m with
            | Except.error e => Except.error e
            | Except.ok m' =>
              Except.ok (setKey cfg "sources" (Yaml.map m'))) =
            Except.ok c' := h
        cases hse : seedEntries m with
        | error e => rw [hse] at h; exact Except.noConfusion h
        | ok m' =>
          simp only [hse] at h
          cases h
          exact getKey_setKey_ne _ _ _ _ hk
      | .bool _, h => exact Except.noConfusion h
      | .int _, h => exact Except.noConfusion h
      | .str _, h => exact Except.noConfusion h
      | .seq _, h => exact Except.noConfusion h

theorem nameEntries_eq : ∀ {lm lm' : Doc}, nameEntries lm = .ok lm' →
    lm' = lm.map insLayerName := by
  intro lm
  induction lm with
  | nil => intro lm' h; cases h; rfl
  | cons p rest ih =>
    intro lm' h
    obtain ⟨k, v⟩ := p
    rw [nameEntries] at h
    match v, h with
    | .map vm, h =>
      cases hr : nameEntries rest with
      | error e => rw [hr] at h; exact Except.noConfusion h
      | ok l =>
        simp only [hr] at h
        cases h
        rw [List.map_cons, ih hr]
        rfl
    | .null, h => exact Except.noConfusion h
    | .bool _, h => exact Except.noConfusion h
    | .int _, h => exact Except.noConfusion h
    | .str _, h => exact Except.noConfusion h
    | .seq _, h => exact Except.noConfusion h

theorem cacheEntryFor_tags {caches : Doc} {s : Yaml} {d : Doc}
    (h : cacheEntryFor caches s = .ok (some d)) : tagged d := by
  match s, h with
  | .str ss, h =>
    rw [cacheEntryFor] at h
    cases hg : getKey caches ss with
    | none =>
      rw [hg] at h
      injection h with h
      exact Option.noConfusion h
    | some cv =>
      simp only [hg] at h
      match cv, h with
      | .map cm, h =>
        replace h : (match getKey (setKey cm "name" (.str ss)) "cache" with
            | none =>
              Except.ok (some (setKey (setKey cm "name" (.str ss))
                "hasBefore" (.bool (isBeforeType
                  (getKey ([] : Doc) "type")))))
            | some (.map cc) =>
              Except.ok (some (setKey (setKey cm "name" (.str ss))
                "hasBefore" (.bool (isBeforeType (getKey cc "type")))))
            | some _ => Except.error "cache is not a mapping") =
            Except.ok (some d) := h
        cases hc : getKey (setKey cm "name" (.str ss)) "cache" with
        | none =>
          simp only [hc] at h
          injection h with h
          injection h with h
          subst h
          constructor
          · rw [getKey_setKey_self]
            exact Option.noConfusion
          · rw [getKey_setKey_ne _ _ _ _ (by decide), getKey_setKey_self]
            exact Option.noConfusion
        | some cc =>
          simp only [hc] at h
          match cc, h with
          | .map ccm, h =>
            simp only at h
            injection h with h
            injection h with h
            subst h
            constructor
            · rw [getKey_setKey_self]
              exact Option.noConfusion
            · rw [getKey_setKey_ne _ _ _ _ (by decide), getKey_setKey_self]
              exact Option.noConfusion
          | .null, h => exact Except.noConfusion h
          | .bool _, h => exact Except.noConfusion h
          | .int _, h => exact Except.noConfusion h
          | .str _, h => exact Except.noConfusion h
          | .seq _, h => exact Except.noConfusion h
      | .null, h => exact Except.noConfusion h
      | .bool _, h => exact Except.noConfusion h
      | .int _, h => exact Except.noConfusion h
      | .str _, h => exact Except.noConfusion h
      | .seq _, h => exact Except.noConfusion h

theorem addSources_tags {caches : Doc} {name : String} :
    ∀ (srcs : List Yaml) (acc r : List (String × List Doc)),
      addSources caches name srcs acc = .ok r →
      (∀ e ∈ acc, ∀ d ∈ e.2, tagged d) →
      ∀ e ∈ r, ∀ d ∈ e.2, tagged d := by
  intro srcs
  induction srcs with
  | nil =>
    intro acc r h hi
    cases h
    exact hi
  | cons s rest ih =>
    intro acc r h hi
    rw [addSources] at h
    cases hc : cacheEntryFor caches s with
    | error e => rw [hc] at h; exact Except.noConfusion h
    | ok o =>
      simp only [hc] at h
      cases o with
      | none => exact ih acc r h hi
      | some centry =>
        have htag : tagged centry := cacheEntryFor_tags hc
        cases hg : getKey acc name with
        | none =>
          simp only [hg] at h
          refine ih _ r h ?_
          intro e he d hd
          rcases mem_setKey he with he | he
          · exact hi e he d hd
          · subst he
            rw [List.mem_singleton] at hd
            subst hd
            exact htag
        | some lst =>
          simp only [hg] at h
          refine ih _ r h ?_
          intro e he d hd
          rcases mem_setKey he with he | he
          · exact hi e he d hd
          · have hlst := hi (name, lst) (getKey_some_mem hg)
            subst he
            rcases List.mem_append.mp hd with hd | hd
            · exact hlst d hd
            · rw [List.mem_singleton] at hd
              subst hd
              exact htag

theorem addLayerCaches_tags {caches : Doc}
    {acc r : List (String × List Doc)} {layer : Yaml}
    (h : addLayerCaches caches acc layer = .ok r)
    (hi : ∀ e ∈ acc, ∀ d ∈ e.2, tagged d) :
    ∀ e ∈ r, ∀ d ∈ e.2, tagged d := by
  match layer, h with
  | .map lm, h =>
    rw [addLayerCaches] at h
    cases hn : getKey lm "name" with
    | none =>
      simp only [hn] at h
      cases h
      exact hi
    | some nv =>
      simp only [hn] at h
      match nv, h with
      | .null, h => cases h; exact hi
      | .str name, h =>
        cases hs : layerSources lm with
        | error e => rw [hs] at h; exact Except.noConfusion h
        | ok srcs =>
          simp only [hs] at h
          exact addSources_tags srcs acc r h hi
      | .bool _, h => exact Except.noConfusion h
      | .int _, h => exact Except.noConfusion h
      | .seq _, h => exact Except.noConfusion h
      | .map _, h => exact Except.noConfusion h

theorem layersLoop_tags {caches : Doc} :
    ∀ (ll : List Yaml) (acc r : List (String × List Doc)),
      layersLoop caches ll acc = .ok r →
      (∀ e ∈ acc, ∀ d ∈ e.2, tagged d) →
      ∀ e ∈ r, ∀ d ∈ e.2, tagged d := by
  intro ll
  induction ll with
  | nil =>
    intro acc r h hi
    cases h
    exact hi
  | cons l rest ih =>
    intro acc r h hi
    rw [layersLoop] at h
    cases ha : addLayerCaches caches acc l with
    | error e => rw [ha] at h; exact Except.noConfusion h
    | ok acc1 =>
      simp only [ha] at h
      exact ih acc1 r h (addLayerCaches_tags ha hi)

/-- C10 (counterexample): with mapping-form layers but no `caches` key,
`parseAndCheckConfig` returns the document untouched — the layer value
`x` acquires no `name` field, contradicting the claim's unconditional
"when the `layers` key is in mapping form". -/
theorem C10_counterexample :
    parseAndCheckConfig fsEmpty 1 "c.yaml" false
      (some [("layers", .map [("x", .map [])])]) =
      .ok ([("layers", .map [("x", .map [])])], []) ∧
    getKey ([] : Doc) "name" = none :=
  ⟨rfl, rfl⟩

/-- C10 (amended): when the document carries mapping-form layers *and* a
caches mapping, a successful `parseAndCheckConfig` returns the document
with every layer value having gained its mapping key as `name`, with the
`caches` value untouched (the extracted snapshots are copies), and with
every extracted snapshot carrying the added `name` and `hasBefore`
fields. -/
theorem C10_amended :
    ∀ (fs : FileSys) (fuel : Nat) (cf : String) (offline : Bool)
      (cfg cfg' lm cm : Doc) (l2c : List (String × List Doc)),
      getKey cfg "base" = none →
      getKey cfg "layers" = some (.map lm) →
      getKey cfg "caches" = some (.map cm) →
      parseAndCheckConfig fs fuel cf offline (some cfg) = .ok (cfg', l2c) →
      getKey cfg' "layers" = some (.map (lm.map insLayerName)) ∧
      getKey cfg' "caches" = some (.map cm) ∧
      ∀ e ∈ l2c, ∀ d ∈ e.2, tagged d := by
  intro fs fuel cf offline cfg cfg' lm cm l2c hb hl hc h
  have hmb : mergeBaseFilesWith (loadConfigFile fs fuel) cfg (dirname cf) =
      .ok cfg := by
    rw [mergeBaseFilesWith, hb]
  rw [parseAndCheckConfig] at h
  simp only [hmb] at h
  rw [parseAndCheckConfigCore] at h
  cases hs : seedOnly offline cfg with
  | error e => rw [hs] at h; exact Except.noConfusion h
  | ok cfgS =>
    simp only [hs] at h
    have hlS : getKey cfgS "layers" = some (.map lm) := by
      rw [seedOnly_preserve (by decide) hs, hl]
    have hcS : getKey cfgS "caches" = some (.map cm) := by
      rw [seedOnly_preserve (by decide) hs, hc]
    simp only [hlS, hcS] at h
    rw [show (Yaml.map lm).isNull = false from rfl,
      show (Yaml.map cm).isNull = false from rfl] at h
    simp only [Bool.or_self, Bool.false_eq_true, if_false] at h
    rw [layersToList] at h
    cases hne : nameEntries lm with
    | error e => rw [hne] at h; exact Except.noConfusion h
    | ok lm' =>
      simp only [hne] at h
      cases hloop : layersLoop cm (lm'.map Prod.snd) [] with
      | error e => rw [hloop] at h; exact Except.noConfusion h
      | ok l2c0 =>
        simp only [hloop] at h
        injection h with h
        injection h with h1 h2
        subst h1 h2
        refine ⟨?_, ?_, ?_⟩
        · rw [getKey_setKey_self, nameEntries_eq hne]
        · rw [getKey_setKey_ne _ _ _ _ (by decide), hcS]
        · exact layersLoop_tags _ [] l2c0 hloop (by intro e he; cases he)

/-- C10 (witness): the amended theorem applied at a concrete document:
the returned document's `l1` layer gained `name = l1`, its `caches` entry
is unchanged, and the extracted snapshot carries `name` and `hasBefore`. -/
theorem C10_witness :
    getKey capOut "layers" =
      some (.map [("l1", .map [("sources", .seq [.str "c1"]),
        ("name", .str "l1")])]) ∧
    getKey capOut "caches" =
      some (.map [("c1", .map [("cache",
        .map [("type", .str "sqlite")])])]) ∧
    tagged capEntry := by
  have h := C10_amended fsEmpty 1 "c.yaml" false capCfg capOut
    [("l1", .map [("sources", .seq [.str "c1"])])]
    [("c1", .map [("cache", .map [("type", .str "sqlite")])])]
    [("l1", [capEntry])] rfl rfl rfl rfl
  exact ⟨h.1, h.2.1, h.2.2 ("l1", [capEntry]) (by simp) capEntry (by simp)⟩

end MPW
